import Mathlib

/-!
# Verification of the `aricanduva` S3-to-IPFS gateway

A shallow embedding of the gateway's core components, translated from the
Rust sources (`src/s3/authorization.rs`, `src/s3/mod.rs`, `src/s3/put_object.rs`,
`src/s3/delete_object.rs`, `src/s3/get_object.rs`, `src/s3/post_object.rs`,
`src/database.rs`, `src/limited_slots.rs`), together with theorems settling
the specification claims about them.

Bytes are modelled as `Nat` (values < 256 where produced by the code),
byte strings as `List Nat`, and machine words as `Nat` reduced modulo `2 ^ 32`
where the code relies on wrap-around. Fallible code returns `Option`/`Except`.
External collaborators (the SQLite store, the IPFS daemon, the `dashmap`,
`url`, `mime_guess` and `iprfc` crates) are modelled by their documented,
observable behaviour at the call sites the code uses.
-/

namespace Aricanduva

/-! ## Byte-level string utilities -/

/-- UTF-8 encoding of a single unicode code point (as produced by Rust's
`str::as_bytes` for each `char`). -/
def utf8Char (c : Char) : List Nat :=
  let n := c.toNat
  if n < 0x80 then [n]
  else if n < 0x800 then [0xC0 ||| (n >>> 6), 0x80 ||| (n &&& 0x3F)]
  else if n < 0x10000 then
    [0xE0 ||| (n >>> 12), 0x80 ||| ((n >>> 6) &&& 0x3F), 0x80 ||| (n &&& 0x3F)]
  else
    [0xF0 ||| (n >>> 18), 0x80 ||| ((n >>> 12) &&& 0x3F),
     0x80 ||| ((n >>> 6) &&& 0x3F), 0x80 ||| (n &&& 0x3F)]

/-- The UTF-8 bytes of a string, i.e. Rust's `str::as_bytes`. -/
def utf8 (s : String) : List Nat :=
  s.data.flatMap utf8Char

/-- ASCII lower-casing of one byte (Rust `u8::to_ascii_lowercase`). -/
def lowerByte (b : Nat) : Nat :=
  if 65 ≤ b ∧ b ≤ 90 then b + 32 else b

/-- ASCII lower-casing of a byte string (Rust `str::to_ascii_lowercase`;
also models `str::to_lowercase` on the ASCII inputs the code handles). -/
def lowerBytes (bs : List Nat) : List Nat :=
  bs.map lowerByte

/-- ASCII whitespace test, modelling the characters `str::trim` removes on
the ASCII header values the code handles. -/
def isWsByte (b : Nat) : Bool :=
  b = 32 || b = 9 || b = 10 || b = 13 || b = 12 || b = 11

/-- Rust `str::trim` (on ASCII data): drop whitespace from both ends. -/
def trimBytes (bs : List Nat) : List Nat :=
  ((bs.dropWhile isWsByte).reverse.dropWhile isWsByte).reverse

/-- The lower-case hex digit for a value < 16 (as emitted by the `hex` crate). -/
def hexDigitLower (n : Nat) : Nat :=
  if n < 10 then 48 + n else 87 + n

/-- `hex::encode`: lower-case hex byte string of a byte string. -/
def hexEncode (bs : List Nat) : List Nat :=
  bs.flatMap (fun b => [hexDigitLower (b / 16), hexDigitLower (b % 16)])

/-- Split a byte string at every occurrence of the byte `sep`
(Rust `str::split`): `n + 1` pieces for `n` separators, empty pieces kept. -/
def splitByte (sep : Nat) : List Nat → List (List Nat)
  | [] => [[]]
  | b :: rest =>
    if b = sep then [] :: splitByte sep rest
    else
      match splitByte sep rest with
      | [] => [[b]]
      | piece :: pieces => (b :: piece) :: pieces

/-- Join byte strings with a separator byte string (Rust `[..].join`). -/
def joinBytes (sep : List Nat) : List (List Nat) → List Nat
  | [] => []
  | [x] => x
  | x :: rest => x ++ sep ++ joinBytes sep rest

/-- Rust `str::trim_start_matches(pre)`: strip the prefix repeatedly while
it is present. -/
def trimStartMatches (pre : List Nat) (s : List Nat) : List Nat :=
  if h : pre ≠ [] ∧ pre.isPrefixOf s then
    have : s.length - pre.length < s.length := by
      rcases h with ⟨hne, hp⟩
      have hle : pre.length ≤ s.length :=
        (List.isPrefixOf_iff_prefix.mp hp).length_le
      have hpos : 0 < pre.length := List.length_pos.mpr hne
      omega
    trimStartMatches pre (s.drop pre.length)
  else s
termination_by s.length
decreasing_by
  simpa [List.length_drop] using this

/-- Split a character list at every occurrence of `sep` (like `splitByte`,
over characters; Rust `str::split('/')`). -/
def splitChar (sep : Char) : List Char → List (List Char)
  | [] => [[]]
  | c :: rest =>
    if c = sep then [] :: splitChar sep rest
    else
      match splitChar sep rest with
      | [] => [[c]]
      | piece :: pieces => (c :: piece) :: pieces

/-- The `/`-separated segments of a string. -/
def splitSegs (s : String) : List String :=
  (splitChar '/' s.data).map (fun l => String.mk l)

/-- Join path components with `/` (`String.intercalate "/"`, written
structurally). -/
def joinComps : List String → String
  | [] => ""
  | c :: rest => rest.foldl (fun acc t => acc ++ "/" ++ t) c

/-! ## SHA-256 (FIPS 180-4), over byte strings -/

/-- 32-bit word arithmetic: addition modulo `2 ^ 32`. -/
def w32add (a b : Nat) : Nat := (a + b) % 4294967296

/-- 32-bit right-rotation. -/
def rotr32 (x n : Nat) : Nat :=
  ((x >>> n) ||| (x <<< (32 - n))) &&& 0xFFFFFFFF

/-- SHA-256 round constants. -/
def sha256K : List Nat :=
  [1116352408, 1899447441, 3049323471, 3921009573, 961987163, 1508970993,
   2453635748, 2870763221, 3624381080, 310598401, 607225278, 1426881987,
   1925078388, 2162078206, 2614888103, 3248222580, 3835390401, 4022224774,
   264347078, 604807628, 770255983, 1249150122, 1555081692, 1996064986,
   2554220882, 2821834349, 2952996808, 3210313671, 3336571891, 3584528711,
   113926993, 338241895, 666307205, 773529912, 1294757372, 1396182291,
   1695183700, 1986661051, 2177026350, 2456956037, 2730485921, 2820302411,
   3259730800, 3345764771, 3516065817, 3600352804, 4094571909, 275423344,
   430227734, 506948616, 659060556, 883997877, 958139571, 1322822218,
   1537002063, 1747873779, 1955562222, 2024104815, 2227730452, 2361852424,
   2428436474, 2756734187, 3204031479, 3329325298]

/-- SHA-256 initial hash value. -/
def sha256H0 : List Nat :=
  [1779033703, 3144134277, 1013904242, 2773480762, 1359893119, 2600822924,
   528734635, 1541459225]

/-- Big-endian bytes of a value as an 8-byte string. -/
def be64 (n : Nat) : List Nat :=
  [(n >>> 56) &&& 255, (n >>> 48) &&& 255, (n >>> 40) &&& 255,
   (n >>> 32) &&& 255, (n >>> 24) &&& 255, (n >>> 16) &&& 255,
   (n >>> 8) &&& 255, n &&& 255]

/-- Big-endian bytes of a 32-bit word. -/
def be32 (n : Nat) : List Nat :=
  [(n >>> 24) &&& 255, (n >>> 16) &&& 255, (n >>> 8) &&& 255, n &&& 255]

/-- SHA-256 message padding. -/
def sha256Pad (msg : List Nat) : List Nat :=
  msg ++ [128] ++ List.replicate ((55 + 64 - msg.length % 64) % 64) 0
      ++ be64 (8 * msg.length)

/-- Split a byte string into chunks of `n` bytes (`n > 0`; the padded SHA-256
message length is a multiple of 64). -/
def chunksOf (n : Nat) (l : List Nat) : List (List Nat) :=
  if h : n = 0 ∨ l = [] then []
  else
    have : l.length - n < l.length := by
      rcases not_or.mp h with ⟨hn, hl⟩
      have : 0 < l.length := List.length_pos.mpr hl
      omega
    l.take n :: chunksOf n (l.drop n)
termination_by l.length
decreasing_by
  simpa [List.length_drop] using this

/-- Read consecutive 4-byte groups as big-endian 32-bit words. -/
def be32Words : List Nat → List Nat
  | b0 :: b1 :: b2 :: b3 :: rest =>
    (((b0 <<< 8 ||| b1) <<< 8 ||| b2) <<< 8 ||| b3) :: be32Words rest
  | _ => []

/-- Extend 16 schedule words to 64 (iterating `count` more words). -/
def sha256Extend : Nat → List Nat → List Nat
  | 0, acc => acc
  | count + 1, acc =>
    let n := acc.length
    let wm15 := acc.getD (n - 15) 0
    let wm2 := acc.getD (n - 2) 0
    let wm16 := acc.getD (n - 16) 0
    let wm7 := acc.getD (n - 7) 0
    let s0 := rotr32 wm15 7 ^^^ rotr32 wm15 18 ^^^ (wm15 >>> 3)
    let s1 := rotr32 wm2 17 ^^^ rotr32 wm2 19 ^^^ (wm2 >>> 10)
    sha256Extend count (acc ++ [w32add (w32add wm16 s0) (w32add wm7 s1)])

/-- One SHA-256 compression round. -/
def sha256Round (state : List Nat) (kw : Nat × Nat) : List Nat :=
  match state with
  | [a, b, c, d, e, f, g, h] =>
    let s1 := rotr32 e 6 ^^^ rotr32 e 11 ^^^ rotr32 e 25
    let ch := (e &&& f) ^^^ ((e ^^^ 0xFFFFFFFF) &&& g)
    let t1 := w32add (w32add (w32add h s1) (w32add ch kw.1)) kw.2
    let s0 := rotr32 a 2 ^^^ rotr32 a 13 ^^^ rotr32 a 22
    let maj := (a &&& b) ^^^ (a &&& c) ^^^ (b &&& c)
    let t2 := w32add s0 maj
    [w32add t1 t2, a, b, c, w32add d t1, e, f, g]
  | other => other

/-- Process one 64-byte block. -/
def sha256Block (h : List Nat) (block : List Nat) : List Nat :=
  let w := sha256Extend 48 (be32Words block)
  let out := (sha256K.zip w).foldl sha256Round h
  (h.zip out).map (fun p => w32add p.1 p.2)

/-- SHA-256 digest of a byte string, as 32 bytes. -/
def sha256 (msg : List Nat) : List Nat :=
  ((chunksOf 64 (sha256Pad msg)).foldl sha256Block sha256H0).flatMap be32

/-! ## HMAC-SHA-256 (the `hmac` crate with `Sha256`) -/

/-- HMAC key normalization: hash long keys, then zero-pad to the 64-byte block. -/
def hmacKey (key : List Nat) : List Nat :=
  let k := if 64 < key.length then sha256 key else key
  k ++ List.replicate (64 - k.length) 0

/-- `AuthenticationRequest::sign`: HMAC-SHA-256 of `data` under `key`,
as 32 raw bytes. -/
def hmacSha256 (key data : List Nat) : List Nat :=
  let k := hmacKey key
  sha256 ((k.map (· ^^^ 92)) ++ sha256 ((k.map (· ^^^ 54)) ++ data))

/-! ## HTTP request/response model

`Request` models the relevant observable parts of an `axum::extract::Request`:
method, URI path, raw query string, headers (names already lower-cased, as
`http::HeaderMap` normalizes them; values are the ASCII strings the code
reads with `to_str`), and the body bytes. -/

structure Request where
  method : String
  path : String
  query : Option String
  headers : List (String × String)
  body : List Nat
deriving DecidableEq, Repr

inductive RespBody where
  /-- An in-memory body (`Body::empty`, `Body::from(..)`). -/
  | bytes (data : List Nat)
  /-- The CAS `cat` stream for a CID, surfaced verbatim (`Body::from_stream`). -/
  | stream (cid : String)
deriving DecidableEq, Repr

structure HttpResponse where
  status : Nat
  headers : List (String × String)
  body : RespBody
deriving DecidableEq, Repr

/-- `HeaderMap::get` on the model: first header whose name matches
ASCII-case-insensitively, returning its value bytes. -/
def headerGet (headers : List (String × String)) (name : List Nat) : Option (List Nat) :=
  (headers.find? (fun kv => lowerBytes (utf8 kv.1) = lowerBytes name)).map
    (fun kv => utf8 kv.2)

/-! ## SigV4 verifier (`src/s3/authorization.rs`) -/

structure AuthConfig where
  access_key : String
  secret_key : String
deriving DecidableEq, Repr

structure AuthenticationRequest where
  credential : List Nat
  date : List Nat
  signature : List Nat
  region : List Nat
  service : List Nat
  string_to_sign : List Nat
deriving DecidableEq, Repr

/-- `PERCENT_ENCODE_SET`: every byte is encoded except the unreserved
characters `A-Z a-z 0-9 - . _ ~`. -/
def isUnreserved (b : Nat) : Bool :=
  (48 ≤ b && b ≤ 57) || (65 ≤ b && b ≤ 90) || (97 ≤ b && b ≤ 122) ||
    b = 45 || b = 46 || b = 95 || b = 126

def hexDigitUpper (n : Nat) : Nat :=
  if n < 10 then 48 + n else 55 + n

/-- `percent_encoding::percent_encode` with `PERCENT_ENCODE_SET`
(upper-case hex escapes). -/
def percentEncode (bs : List Nat) : List Nat :=
  bs.flatMap (fun b =>
    if isUnreserved b then [b]
    else [37, hexDigitUpper (b / 16), hexDigitUpper (b % 16)])

/-- Value of an ASCII hex digit. -/
def hexVal? (b : Nat) : Option Nat :=
  if 48 ≤ b ∧ b ≤ 57 then some (b - 48)
  else if 65 ≤ b ∧ b ≤ 70 then some (b - 55)
  else if 97 ≤ b ∧ b ≤ 102 then some (b - 87)
  else none

/-- Percent-decoding as done by the `url` crate: a `%` followed by two hex
digits decodes to a byte; otherwise bytes pass through. -/
def percentDecode : List Nat → List Nat
  | [] => []
  | 37 :: h1 :: h2 :: rest =>
    match hexVal? h1, hexVal? h2 with
    | some a, some b => (16 * a + b) :: percentDecode rest
    | _, _ => 37 :: percentDecode (h1 :: h2 :: rest)
  | b :: rest => b :: percentDecode rest

/-- `form_urlencoded` component decoding: `+` means space, then
percent-decode. (Decoded bytes are kept as bytes; the lossy UTF-8
replacement the `url` crate applies to invalid sequences is not modelled.) -/
def formDecode (bs : List Nat) : List Nat :=
  percentDecode (bs.map (fun b => if b = 43 then 32 else b))

/-- Split a query-pair fragment at its first `=` (key, optional value). -/
def splitFirstEq : List Nat → (List Nat × Option (List Nat))
  | [] => ([], none)
  | b :: rest =>
    if b = 61 then ([], some rest)
    else
      let kv := splitFirstEq rest
      (b :: kv.1, kv.2)

/-- `Url::query_pairs`: split the raw query on `&`, skip empty fragments,
split each fragment at the first `=`, and form-decode key and value. -/
def queryPairs (q : List Nat) : List (List Nat × List Nat) :=
  ((splitByte 38 q).filter (fun p => ¬ p.isEmpty)).map (fun part =>
    let kv := splitFirstEq part
    (formDecode kv.1, formDecode (kv.2.getD [])))

/-- Byte-wise lexicographic order, i.e. Rust's `String::cmp` on the UTF-8
representation. -/
def leBytes : List Nat → List Nat → Bool
  | [], _ => true
  | _ :: _, [] => false
  | a :: as, b :: bs => if a < b then true else if b < a then false else leBytes as bs

/-- Rust's stable `sort_by(String::cmp)`, modelled by insertion sort. -/
def sortBytes (l : List (List Nat)) : List (List Nat) :=
  l.insertionSort (fun a b => leBytes a b)

/-- `canonicalize_uri`: split the path on `/`, percent-encode each segment,
rejoin with `/`. -/
def canonicalize_uri (path : String) : List Nat :=
  joinBytes [47] ((splitByte 47 (utf8 path)).map percentEncode)

/-- `canonicalize_query_string`: re-parse the query (via `Url::parse`, which
succeeds on the valid URIs `http::Uri` admits), drop `x-amz-signature`
case-insensitively, percent-encode key and value, format `k=v`, sort, join
with `&`. -/
def canonicalize_query_string (query : Option String) : List Nat :=
  let parts := (queryPairs (utf8 (query.getD ""))).filter
      (fun kv => lowerBytes kv.1 ≠ utf8 "x-amz-signature")
    |>.map (fun kv => percentEncode kv.1 ++ [61] ++ percentEncode kv.2)
  joinBytes [38] (sortBytes parts)

/-- `canonicalize_headers`: for each signed header name, `lowname:trimmed
value` (absent headers read as empty), sorted, joined with newlines. -/
def canonicalize_headers (headers : List (String × String))
    (signedHeaders : List (List Nat)) : List Nat :=
  let pairs := signedHeaders.map (fun name =>
    lowerBytes name ++ [58] ++ trimBytes ((headerGet headers name).getD []))
  joinBytes [10] (sortBytes pairs)

/-- `EMTPY_BODY_HASH` (sic): the SHA-256 of the empty body. -/
def EMTPY_BODY_HASH : List Nat :=
  utf8 "e3b0c44298fc1c149afbf4c8996fb92427ae41e4649b934ca495991b7852b855"

/-- `from_authorization_header`: extract a SigV4 authentication request from
the `Authorization` header, deriving the canonical request and string to
sign. -/
def from_authorization_header (request : Request) : Option AuthenticationRequest :=
  match headerGet request.headers (utf8 "authorization") with
  | none => none
  | some headerValue =>
    match headerGet request.headers (utf8 "x-amz-date") with
    | none => none
    | some dateTime =>
      let parts := (splitByte 44
        (trimStartMatches (utf8 "AWS4-HMAC-SHA256 ") headerValue)).map trimBytes
      if parts.length < 2 then none
      else
        match parts.find? (fun p => (utf8 "Credential=").isPrefixOf p) with
        | none => none
        | some credPart =>
          match (splitByte 47 (trimStartMatches (utf8 "Credential=") credPart)).take 4 with
          | [credential, date, region, service] =>
            match parts.find? (fun p => (utf8 "SignedHeaders=").isPrefixOf p) with
            | none => none
            | some shPart =>
              let signedHeadersPart := trimStartMatches (utf8 "SignedHeaders=") shPart
              let signedHeaders := splitByte 59 signedHeadersPart
              let canonicalUri := canonicalize_uri request.path
              let canonicalQueryString := canonicalize_query_string request.query
              let canonicalHeaders := canonicalize_headers request.headers signedHeaders
              let bodyHash := (headerGet request.headers
                (utf8 "x-amz-content-sha256")).getD EMTPY_BODY_HASH
              let canonicalRequest := joinBytes [10]
                [utf8 request.method, canonicalUri, canonicalQueryString,
                 canonicalHeaders, [], signedHeadersPart, bodyHash]
              let stringToSign := joinBytes [10]
                [utf8 "AWS4-HMAC-SHA256", dateTime,
                 date ++ [47] ++ region ++ [47] ++ service ++ utf8 "/aws4_request",
                 hexEncode (sha256 canonicalRequest)]
              match parts.find? (fun p => (utf8 "Signature=").isPrefixOf p) with
              | none => none
              | some sigPart =>
                some { credential, date, region, service,
                       string_to_sign := stringToSign,
                       signature := trimStartMatches (utf8 "Signature=") sigPart }
          | _ => none

/-- Last-occurrence lookup in decoded query pairs, modelling the
`collect::<HashMap<_,_>>` (later duplicates overwrite earlier ones). -/
def pairsGetLast (pairs : List (List Nat × List Nat)) (key : List Nat) :
    Option (List Nat) :=
  ((pairs.filter (fun kv => kv.1 = key)).getLast?).map (fun kv => kv.2)

/-- `from_query_params`: extract a SigV4 authentication request from
presigned-URL query parameters. -/
def from_query_params (request : Request) : Option AuthenticationRequest :=
  let query := (queryPairs (utf8 (request.query.getD ""))).map
    (fun kv => (lowerBytes kv.1, kv.2))
  match pairsGetLast query (utf8 "x-amz-credential") with
  | none => none
  | some accessKeyId =>
    match pairsGetLast query (utf8 "x-amz-signature") with
    | none => none
    | some signature =>
      let signedHeaders := (pairsGetLast query (utf8 "x-amz-signedheaders")).getD []
      match pairsGetLast query (utf8 "x-amz-date") with
      | none => none
      | some dateTime =>
        let credentialParts := splitByte 47 accessKeyId
        if credentialParts.length < 5 then none
        else
          match credentialParts with
          | credential :: date :: region :: service :: _ =>
            let canonicalUri := canonicalize_uri request.path
            let canonicalQueryString := canonicalize_query_string request.query
            let signedHeadersList := splitByte 59 signedHeaders
            let canonicalHeaders := canonicalize_headers request.headers signedHeadersList
            let bodyHash := utf8 "UNSIGNED-PAYLOAD"
            let canonicalRequest := joinBytes [10]
              [utf8 request.method, canonicalUri, canonicalQueryString,
               canonicalHeaders, [], signedHeaders, bodyHash]
            let stringToSign := joinBytes [10]
              [utf8 "AWS4-HMAC-SHA256", dateTime,
               date ++ [47] ++ region ++ [47] ++ service ++ utf8 "/aws4_request",
               hexEncode (sha256 canonicalRequest)]
            some { credential, date, signature, region, service,
                   string_to_sign := stringToSign }
          | _ => none

/-- The SigV4 key-derivation chain of `AuthenticationRequest::is_valid`. -/
def signingKey (secretKey : String) (date region service : List Nat) : List Nat :=
  let dateKey := hmacSha256 (utf8 "AWS4" ++ utf8 secretKey) date
  let dateRegionKey := hmacSha256 dateKey region
  let dateRegionServiceKey := hmacSha256 dateRegionKey service
  hmacSha256 dateRegionServiceKey (utf8 "aws4_request")

/-- `AuthenticationRequest::is_valid`: the credential must equal the
configured access key and the hex HMAC of the string to sign under the
derived key must equal the provided signature. -/
def is_valid (auth : AuthenticationRequest) (config : AuthConfig) : Bool :=
  if auth.credential ≠ utf8 config.access_key then false
  else
    hexEncode (hmacSha256 (signingKey config.secret_key auth.date auth.region auth.service)
      auth.string_to_sign) = auth.signature

/-! ## Streaming chunked-payload unwrapper -/

/-- The error kinds of the unwrapper. `Parsing`, `ParseInt` and `IoRead`
are the source's `StreamingErrors` variants; `SlicePanic` models the
arithmetic-underflow panic of `&size_varint[..len - 1]` on an empty read,
and `OutOfFuel` is an artifact of the fuel-based recursion that provably
never occurs (`unwrapChunksGo_no_fuel`). -/
inductive StreamingErrors where
  | Parsing
  | ParseInt
  | IoRead
  | SlicePanic
  | OutOfFuel
deriving DecidableEq, Repr

deriving instance DecidableEq for Except

/-- `read_until(b';')`: consume bytes up to and including the first `;`
(or everything, at end of input). -/
def readUntilSemi : List Nat → (List Nat × List Nat)
  | [] => ([], [])
  | b :: rest =>
    if b = 59 then ([59], rest)
    else
      let vr := readUntilSemi rest
      (b :: vr.1, vr.2)

/-- The byte-class walker behind `isValidUtf8`: `pending` continuation
bytes are expected, the first of them constrained to `[lo, hi]`. -/
def utf8Go : Nat → Nat → Nat → List Nat → Bool
  | 0, _, _, [] => true
  | 0, _, _, b :: rest =>
    if b < 0x80 then utf8Go 0 0 0 rest
    else if 0xC2 ≤ b && b ≤ 0xDF then utf8Go 1 0x80 0xBF rest
    else if b = 0xE0 then utf8Go 2 0xA0 0xBF rest
    else if b = 0xED then utf8Go 2 0x80 0x9F rest
    else if 0xE0 ≤ b && b ≤ 0xEF then utf8Go 2 0x80 0xBF rest
    else if b = 0xF0 then utf8Go 3 0x90 0xBF rest
    else if b = 0xF4 then utf8Go 3 0x80 0x8F rest
    else if 0xF0 ≤ b && b ≤ 0xF4 then utf8Go 3 0x80 0xBF rest
    else false
  | _ + 1, _, _, [] => false
  | n + 1, lo, hi, c :: rest =>
    if lo ≤ c && c ≤ hi then utf8Go n 0x80 0xBF rest else false

/-- UTF-8 validity (`str::from_utf8`). -/
def isValidUtf8 (l : List Nat) : Bool := utf8Go 0 0 0 l

/-- `usize::from_str_radix(s, 16)`: optional leading `+`, then one or more
hex digits, with a 64-bit overflow check. -/
def fromStrRadix16 (s : List Nat) : Option Nat :=
  let digits := if s.head? = some 43 then s.tail else s
  if digits.isEmpty then none
  else
    digits.foldlM
      (fun acc b => (hexVal? b).bind (fun d =>
        if acc * 16 + d < 18446744073709551616 then some (acc * 16 + d) else none))
      0

/-- One `try_unfold` pass of `streaming_chunk_body`, with fuel for
termination (each recursion consumes at least 86 input bytes, so fuel
`input.length + 1` never runs out). -/
def unwrapChunksGo : Nat → List Nat → Except StreamingErrors (List (List Nat))
  | 0, _ => .error .OutOfFuel
  | fuel + 1, input =>
    let vr := readUntilSemi input
    if vr.1.isEmpty then .error .SlicePanic
    else
      let sizeBytes := vr.1.dropLast
      if ¬ isValidUtf8 sizeBytes then .error .Parsing
      else
        match fromStrRadix16 sizeBytes with
        | none => .error .ParseInt
        | some chunkSize =>
          if chunkSize = 0 then .ok []
          else if vr.2.length < 82 then .error .IoRead
          else
            let r1 := vr.2.drop 82
            if r1.length < chunkSize then .error .IoRead
            else
              let chunk := r1.take chunkSize
              let r2 := r1.drop chunkSize
              if r2.length < 2 then .error .IoRead
              else
                match unwrapChunksGo fuel (r2.drop 2) with
                | .ok chunks => .ok (chunk :: chunks)
                | .error e => .error e

/-- `streaming_chunk_body`: unwrap the framed streaming payload into the
sequence of chunk payloads (the bytes the downstream handler observes). -/
def streaming_chunk_body (body : List Nat) : Except StreamingErrors (List (List Nat)) :=
  unwrapChunksGo (body.length + 1) body

/-! ## The authorization service (`AuthorizationService::call`) -/

inductive ForwardedBody where
  /-- The body passed through unchanged. -/
  | plain (bytes : List Nat)
  /-- The body rewritten by `streaming_chunk_body`. -/
  | unwrapped (chunks : Except StreamingErrors (List (List Nat)))
deriving DecidableEq, Repr

inductive AuthResult where
  /-- The request is forwarded to the inner service with the given body. -/
  | forward (request : Request) (body : ForwardedBody)
  /-- The request is short-circuited with a response. -/
  | reject (response : HttpResponse)
deriving DecidableEq, Repr

def unauthorizedResponse : HttpResponse :=
  { status := 401, headers := [], body := .bytes [] }

/-- `AuthorizationService::call`: parse the request from the Authorization
header or, failing that, the presigned query parameters; if the result
validates, forward (unwrapping a streaming payload body); otherwise respond
`401 Unauthorized`. -/
def authorizationCall (config : AuthConfig) (request : Request) : AuthResult :=
  match from_authorization_header request <|> from_query_params request with
  | some sign =>
    if is_valid sign config then
      if headerGet request.headers (utf8 "x-amz-content-sha256")
          = some (utf8 "STREAMING-AWS4-HMAC-SHA256-PAYLOAD") then
        .forward request (.unwrapped (streaming_chunk_body request.body))
      else
        .forward request (.plain request.body)
    else .reject unauthorizedResponse
  | none => .reject unauthorizedResponse

/-! ## The index (`src/database.rs`)

The missing migration file (not under `src/`) is modelled from the spec:
the single table `metadata(cid, bucket, object_key, content_type, size,
updated_at, PRIMARY KEY (bucket, object_key))` with `updated_at` set on
insert and refreshed on replace (spec §3 and §6 "Persisted state"). -/

/-- One `metadata` row (`MetadataResponse`). `updated_at` is an abstract
timestamp. -/
structure Row where
  bucket : String
  object_key : String
  cid : String
  size : Int
  content_type : String
  updated_at : Nat
deriving DecidableEq, Repr

/-- SQLite ASCII case-folding used by `LIKE`. -/
def lowerChar (c : Char) : Char :=
  if 'A' ≤ c ∧ c ≤ 'Z' then Char.ofNat (c.toNat + 32) else c

/-- SQLite `LIKE` matching: `%` matches any sequence, `_` any single
character, other characters match ASCII-case-insensitively. -/
def likeMatch : List Char → List Char → Bool
  | [], s => s.isEmpty
  | c :: p, [] => if c = '%' then likeMatch p [] else false
  | c :: p, d :: s =>
    if c = '%' then ((d :: s).tails).any (fun t => likeMatch p t)
    else if c = '_' then likeMatch p s
    else (lowerChar c == lowerChar d) && likeMatch p s

/-- `get_object_metadata`: the row for `(bucket, key)`, if any. -/
def get_object_metadata (db : List Row) (bucket key : String) : Option Row :=
  db.find? (fun r => r.bucket = bucket ∧ r.object_key = key)

/-- `store_object_metadata`: `INSERT .. ON CONFLICT DO UPDATE`, i.e. an
upsert on the `(bucket, object_key)` primary key refreshing `cid`, `size`,
`content_type` and `updated_at` (the latter modelled from the spec's
schema, the migration being outside `src/`). The store is modelled up to
row order. -/
def store_object_metadata (db : List Row) (bucket key cid : String) (size : Int)
    (contentType : String) (now : Nat) : List Row :=
  db.filter (fun r => ¬ (r.bucket = bucket ∧ r.object_key = key)) ++
    [{ bucket, object_key := key, cid, size, content_type := contentType,
       updated_at := now }]

/-- `delete_object` (the SQL `DELETE` by bucket and key). -/
def db_delete_object (db : List Row) (md : Row) : List Row :=
  db.filter (fun r => ¬ (r.bucket = md.bucket ∧ r.object_key = md.object_key))

/-- `cid_count`: `SELECT COUNT(1) FROM metadata WHERE cid = ?`. -/
def cid_count (db : List Row) (cid : String) : Nat :=
  (db.filter (fun r => r.cid = cid)).length

/-- The SQL `.. WHERE bucket = ? AND object_key LIKE ?` count (`=` on text
is byte-exact, `LIKE` uses wildcard matching). -/
def likeCount (db : List Row) (bucket pattern : String) : Nat :=
  (db.filter (fun r => r.bucket = bucket ∧ likeMatch pattern.data r.object_key.data)).length

/-- `UnixPath::ancestors` of a clean slash-separated relative key, with the
empty path filtered out, deepest first. -/
def ancestorStrings (path : String) : List String :=
  let comps := (splitSegs path).filter (fun t => t ≠ "")
  (List.range comps.length).reverse.map
    (fun i => joinComps (comps.take (i + 1)))

/-- The loop of `find_shallowest_removable_directory`: keep the latest
zero-count ancestor, stop at the first ancestor that still has entries. -/
def fsrdGo (db : List Row) (bucket : String) :
    List String → Option String → Option String
  | [], shallow => shallow
  | a :: rest, shallow =>
    if likeCount db bucket (a ++ "/%") = 0 then fsrdGo db bucket rest (some a)
    else shallow

/-- `find_shallowest_removable_directory`: walk the ancestors of `path`
from the deepest, counting index entries under each with a `LIKE '{a}/%'`
query, and return the last ancestor seen with a zero count. -/
def find_shallowest_removable_directory (db : List Row) (bucket path : String) :
    Option String :=
  fsrdGo db bucket (ancestorStrings path) none

/-! ## Path normalization (`normalized_path`, `src/s3/mod.rs`) -/

/-- `typed_path::CheckedPathError`. -/
inductive CheckedPathError where
  | PathTraversalAttack
  | UnexpectedRoot
  | InvalidCharacter
deriving DecidableEq, Repr

inductive PathComponent where
  | rootDir
  | parentDir
  | normal (s : String)
deriving DecidableEq, Repr

/-- The components of a pushed path, as `typed_path` parses them: a leading
`/` is a root component, empty and `.` segments disappear (`.` segments
are accepted by `push_checked` and removed by `normalize`, so they are
dropped here directly), `..` is a parent component. -/
def pathComponents (s : String) : List PathComponent :=
  let lead : List PathComponent := if s.data.head? = some '/' then [.rootDir] else []
  lead ++ ((splitSegs s).filter (fun t => t ≠ "" ∧ t ≠ ".")).map
    (fun t => if t = ".." then PathComponent.parentDir else .normal t)

/-- Validate and append one parsed component: root components, parent
components, and NUL bytes are rejected. -/
def pushComponent (acc : List String) (c : PathComponent) :
    Except CheckedPathError (List String) :=
  match c with
  | .rootDir => .error .UnexpectedRoot
  | .parentDir => .error .PathTraversalAttack
  | .normal t =>
    if t.data.any (fun ch => ch.toNat = 0) then .error .InvalidCharacter
    else .ok (acc ++ [t])

/-- `UnixPathBuf::push_checked` of one path onto an accumulated component
list. -/
def push_checked (acc : List String) (p : String) :
    Except CheckedPathError (List String) :=
  (pathComponents p).foldlM pushComponent acc

/-- `normalized_path`: start from `/`, push `start`, `bucket`, `key` with
checked appends, and normalize. With `..` rejected and `.` removed, the
normalized path is the slash-join of the accumulated components. -/
def normalized_path (start bucket key : String) : Except CheckedPathError String := do
  let a1 ← push_checked [] start
  let a2 ← push_checked a1 bucket
  let a3 ← push_checked a2 key
  .ok ("/" ++ joinComps a3)

/-- `etag_value`: a weak etag for a CID. -/
def etag_value (cid : String) : String := "W/" ++ cid

/-! ## Service state and configuration -/

/-- A recorded CAS (IPFS) RPC invocation. `add` stands for the
`add`+`files_cp` pair of `IpfsClient::add_content`. -/
inductive CasCall where
  | add (path : String) (bytes : List Nat)
  | unlink (path : String)
  | unpin (cid : String)
deriving DecidableEq, Repr

inductive OperationMode where
  | Proxy
  | Redirect
  | Auto
deriving DecidableEq, Repr

/-- The parts map of one multipart upload: `DashMap<i8, Bytes>`, modelled
as an association list with at most one entry per part number. -/
abbrev Parts := List (Int × List Nat)

/-- The relevant `RunConfig` fields, plus the multipart registry's actual
capacity. `gateway` is the configured public gateway's scheme-and-authority
(its path is replaced by `/ipfs/{cid}` when building redirects).
`dashmap_capacity` is the value of
`DashMap::with_capacity(concurrent_multipart_upload).capacity()`: it is
determined by the external `dashmap`/`hashbrown` crates, which round the
request up per shard and document only that it is at least
`concurrent_multipart_upload`, so it is kept as an opaque field rather
than computed. -/
structure Config where
  folder_prefix : String
  gateway : String
  mode : OperationMode
  trim_empty_folders : Bool
  auto_mime : Bool
  concurrent_multipart_upload : Nat
  dashmap_capacity : Nat
deriving Repr

/-- The mutable world the handlers act on: the SQLite index, the CAS
node's MFS view (path to CID), the log of CAS invocations issued so far,
and the in-process multipart registry. -/
structure S where
  index : List Row
  mfs : List (String × String)
  casCalls : List CasCall
  slots : List (String × Parts)
deriving DecidableEq, Repr

/-- The empty initial state. -/
def S0 : S := { index := [], mfs := [], casCalls := [], slots := [] }

/-- The CIDs on which `pin_remove` has been invoked, in order. -/
def unpins (s : S) : List String :=
  s.casCalls.filterMap (fun c =>
    match c with
    | .unpin cid => some cid
    | _ => none)

/-- The content address assigned by the CAS node on `add`: deterministic in
the content (spec glossary: two identical byte sequences produce the same
CID). -/
def cidOf (bytes : List Nat) : String :=
  bytes.foldl (fun acc b => acc ++ "-" ++ toString b) "baf"

/-- `IpfsClient::add_content`: `add` the bytes, then `files_cp` the
resulting CID over `path` (`parents=true, force=true`), returning the CID. -/
def add_content (s : S) (path : String) (bytes : List Nat) : S × String :=
  let cid := cidOf bytes
  ({ s with
      casCalls := s.casCalls ++ [.add path bytes],
      mfs := s.mfs.filter (fun e => e.1 ≠ path) ++ [(path, cid)] }, cid)

/-- `IpfsClient::unlink`: `files_rm(path, recursive=true)`, removing the
entry and anything below it. -/
def cas_unlink (s : S) (path : String) : S :=
  { s with
      casCalls := s.casCalls ++ [.unlink path],
      mfs := s.mfs.filter (fun e => ¬ (e.1 = path ∨ (path ++ "/").isPrefixOf e.1)) }

/-- `unpin_if_orphan`: count the remaining index references of the CID and
`pin_remove` it only when none remain. -/
def unpin_if_orphan (s : S) (metadata : Row) : S :=
  if cid_count s.index metadata.cid = 0 then
    { s with casCalls := s.casCalls ++ [.unpin metadata.cid] }
  else s

/-! ## The multipart registry (`src/limited_slots.rs`) -/

/-- `LimitedSlotsMap::insert` (via `check_capacity`): refuse when
`len() < capacity()` fails. The `capacity` argument is the inner
`DashMap`'s actual `capacity()` (the caller passes
`Config.dashmap_capacity`), not the configured request. -/
def slots_insert (slots : List (String × Parts)) (capacity : Nat) (key : String)
    (value : Parts) : Option (List (String × Parts)) :=
  if slots.length < capacity then
    some (slots.filter (fun e => e.1 ≠ key) ++ [(key, value)])
  else none

/-- `LimitedSlotsMap::get`. -/
def slots_get (slots : List (String × Parts)) (key : String) : Option Parts :=
  (slots.find? (fun e => e.1 = key)).map (fun e => e.2)

/-- `LimitedSlotsMap::remove`. -/
def slots_remove (slots : List (String × Parts)) (key : String) :
    List (String × Parts) :=
  slots.filter (fun e => e.1 ≠ key)

/-- `DashMap::insert` on a parts map: replace the entry for the part
number, or append it. -/
def parts_insert (parts : Parts) (partNumber : Int) (bytes : List Nat) : Parts :=
  if parts.any (fun e => e.1 = partNumber) then
    parts.map (fun e => if e.1 = partNumber then (partNumber, bytes) else e)
  else parts ++ [(partNumber, bytes)]

/-- Replace the parts map stored under an upload id. -/
def slots_set (slots : List (String × Parts)) (key : String) (value : Parts) :
    List (String × Parts) :=
  slots.map (fun e => if e.1 = key then (key, value) else e)

/-- `DashMap::get` on a parts map: the bytes stored under a part number. -/
def parts_get (parts : Parts) (partNumber : Int) : Option (List Nat) :=
  (parts.find? (fun e => e.1 = partNumber)).map (fun e => e.2)

/-! ## Handlers -/

/-- An error `StatusCode` returned from a handler (axum renders it as a
response with an empty body). -/
def statusResponse (status : Nat) : HttpResponse :=
  { status, headers := [], body := .bytes [] }

/-- Modelled behaviour of the external `mime_guess` crate: a guess from
the key's extension, defaulting to `application/octet-stream`
(`first_or_octet_stream`). -/
def mimeGuess (key : String) : String :=
  let ext := ((splitChar '.' ((splitSegs key).getLastD "").data).map
    (fun l => String.mk l)).getLastD ""
  if ext = "txt" then "text/plain"
  else if ext = "html" then "text/html"
  else if ext = "png" then "image/png"
  else "application/octet-stream"

/-- Modelled rendering of `updated_at` with chrono's
`%a, %d %b %Y %H:%M:%S GMT` format (abstract but injective in the
timestamp). -/
def httpDate (t : Nat) : String := toString t ++ " GMT"

/-- Content-type resolution of `put_object`: the `Content-Type` header if
present, else a MIME guess from the key when `auto_mime` is on, else
`application/octet-stream`. -/
def resolve_content_type (cfg : Config) (key : String)
    (content_type : Option String) : String :=
  match content_type with
  | some v => v
  | none =>
    if cfg.auto_mime then mimeGuess key else "application/octet-stream"

/-- `put_object`: `UploadPart` when the `uploadId`/`partNumber` query
parameters are present, otherwise the PutObject sequence: read the old
row, resolve the content type, normalize the path (`400` on failure), add
to the CAS and MFS, upsert the index, then (as a spawned task, modelled as
running synchronously after the handler's writes) unpin the old CID if it
changed and became unreferenced. -/
def put_object (cfg : Config) (s : S) (bucket key : String)
    (content_type : Option String) (upload_part : Option (Int × String))
    (body : List Nat) (now : Nat) : S × HttpResponse :=
  match upload_part with
  | some (partNumber, uploadId) =>
    match slots_get s.slots uploadId with
    | some parts =>
      ({ s with slots := slots_set s.slots uploadId (parts_insert parts partNumber body) },
       { status := 200, headers := [], body := .bytes [] })
    | none => (s, statusResponse 400)
  | none =>
    let old := get_object_metadata s.index bucket key
    let ct := resolve_content_type cfg key content_type
    match normalized_path cfg.folder_prefix bucket key with
    | .error _ => (s, statusResponse 400)
    | .ok path =>
      let file_size : Int := body.length
      let sc := add_content s path body
      let s1 := sc.1
      let cid := sc.2
      let s2 := { s1 with
        index := store_object_metadata s1.index bucket key cid file_size ct now }
      let s3 :=
        match old with
        | some o => if o.cid ≠ cid then unpin_if_orphan s2 o else s2
        | none => s2
      (s3, { status := 200,
             headers := [("content-length", "0"), ("etag", etag_value cid),
                         ("x-ipfs-roots", cid), ("x-ipfs-path", "/ipfs/" ++ cid)],
             body := .bytes [] })

/-- `delete_object`: `AbortMultipartUpload` when an `uploadId` query
parameter is present; otherwise look up the row (`404` when absent),
normalize the path (`500` on failure), `files_rm` it, delete the row,
unpin the CID if unreferenced, and (when `trim_empty_folders` is on, as a
background task modelled synchronously) remove the shallowest removable
ancestor directory, ignoring its errors. -/
def delete_object (cfg : Config) (s : S) (bucket key : String)
    (upload_id : Option String) : S × HttpResponse :=
  match upload_id with
  | some uid =>
    ({ s with slots := slots_remove s.slots uid },
     { status := 204, headers := [], body := .bytes [] })
  | none =>
    match get_object_metadata s.index bucket key with
    | none => (s, statusResponse 404)
    | some metadata =>
      match normalized_path cfg.folder_prefix metadata.bucket metadata.object_key with
      | .error _ => (s, statusResponse 500)
      | .ok path =>
        let s1 := cas_unlink s path
        let s2 := { s1 with index := db_delete_object s1.index metadata }
        let s3 := unpin_if_orphan s2 metadata
        let s4 :=
          if cfg.trim_empty_folders then
            match find_shallowest_removable_directory s3.index metadata.bucket
                metadata.object_key with
            | some toRemove =>
              match normalized_path cfg.folder_prefix metadata.bucket toRemove with
              | .ok p2 => cas_unlink s3 p2
              | .error _ => s3
            | none => s3
          else s3
        (s4, { status := 204,
               headers := [("x-ipfs-path", "/ipfs/" ++ metadata.cid),
                           ("x-ipfs-roots", metadata.cid)],
               body := .bytes [] })

/-- `get_object::redirect`: `307` to the configured gateway with the path
replaced by `/ipfs/{cid}` (the `Uri`-parts surgery modelled as
concatenating onto the gateway origin) and an empty body. -/
def redirect (cfg : Config) (metadata : Row) : HttpResponse :=
  let ipfsPath := "/ipfs/" ++ metadata.cid
  let gateway := cfg.gateway ++ ipfsPath
  { status := 307,
    headers := [("location", gateway), ("x-ipfs-path", ipfsPath),
                ("x-ipfs-roots", metadata.cid),
                ("content-type", metadata.content_type)],
    body := .bytes [] }

/-- `get_object::proxy`: `200` with the CAS `cat` stream as body. -/
def proxy (_cfg : Config) (metadata : Row) : HttpResponse :=
  let ipfsPath := "/ipfs/" ++ metadata.cid
  { status := 200,
    headers := [("x-ipfs-path", ipfsPath), ("x-ipfs-roots", metadata.cid),
                ("cache-control", "public, max-age=29030400, immutable"),
                ("last-modified", httpDate metadata.updated_at),
                ("priority", "i"), ("x-robots-tag", "noindex, nofollow"),
                ("etag", etag_value metadata.cid),
                ("content-type", metadata.content_type)],
    body := .stream metadata.cid }

/-- `get_object`: look up the row (`404` when absent) and dispatch on the
operation mode. `clientIpReserved` models
`iprfc::RFC6890.contains(client_ip) || private_cidrs.any(..)`. -/
def get_object (cfg : Config) (s : S) (bucket key : String)
    (clientIpReserved : Bool) : HttpResponse :=
  match get_object_metadata s.index bucket key with
  | none => statusResponse 404
  | some metadata =>
    match cfg.mode with
    | .Redirect => redirect cfg metadata
    | .Proxy => proxy cfg metadata
    | .Auto =>
      if clientIpReserved then proxy cfg metadata else redirect cfg metadata

/-- The `CompleteMultipartUpload` body: parts sorted ascending by part
number (itertools' stable `sorted_by_key`, modelled by insertion sort; the
association list stands in for `DashMap`'s iteration order) and
concatenated. -/
def completeBody (parts : Parts) : List Nat :=
  ((parts.insertionSort (fun a b => a.1 ≤ b.1)).map (fun e => e.2)).flatten

/-- The `InitiateMultipartUploadResult` XML (declaration and indentation
elided). -/
def initiateXml (bucket key uploadId : String) : String :=
  "<InitiateMultipartUploadResult><Bucket>" ++ bucket ++ "</Bucket><Key>" ++ key
    ++ "</Key><UploadId>" ++ uploadId ++ "</UploadId></InitiateMultipartUploadResult>"

/-- The `CompleteMultipartUploadResult` XML (declaration and indentation
elided). -/
def completeXml (bucket key etag : String) : String :=
  "<CompleteMultipartUploadResult><Bucket>" ++ bucket ++ "</Bucket><Key>" ++ key
    ++ "</Key><ETag>" ++ etag ++ "</ETag></CompleteMultipartUploadResult>"

/-- `multipart_upload` (`POST /{bucket}/{key}`): with `?uploads`, create a
registry entry under a fresh random id (`newUploadId`, sampled externally),
answering `503` when the registry refuses; with `?uploadId`, remove the
entry (`400` when absent), concatenate its parts in ascending part-number
order and run `put_object` on the result, echoing its ETag as XML. -/
def multipart_upload (cfg : Config) (s : S) (bucket key : String)
    (uploads : Option String) (upload_id : Option String) (newUploadId : String)
    (now : Nat) : S × HttpResponse :=
  if uploads.isSome then
    match slots_insert s.slots cfg.dashmap_capacity newUploadId [] with
    | some slots' =>
      ({ s with slots := slots' },
       { status := 200, headers := [("content-type", "text/xml")],
         body := .bytes (utf8 (initiateXml bucket key newUploadId)) })
    | none => (s, statusResponse 503)
  else
    match upload_id with
    | some uid =>
      match slots_get s.slots uid with
      | some parts =>
        let s1 := { s with slots := slots_remove s.slots uid }
        let sr := put_object cfg s1 bucket key none none (completeBody parts) now
        if sr.2.status = 200 then
          let etag := ((sr.2.headers.find? (fun h => h.1 = "etag")).map
            (fun h => h.2)).getD ""
          (sr.1, { status := 200, headers := [],
                   body := .bytes (utf8 (completeXml bucket key etag)) })
        else sr
      | none => (s, statusResponse 400)
    | none => (s, statusResponse 400)

/-! ## Operation sequences (for the pin-accounting claim) -/

/-- A PutObject or DeleteObject request against fixed handlers. -/
inductive Op where
  | put (bucket key : String) (content_type : Option String) (body : List Nat)
      (now : Nat)
  | del (bucket key : String)
deriving DecidableEq, Repr

/-- Execute one operation (the state left by the handler, spawned tasks
included). -/
def step (cfg : Config) (s : S) : Op → S
  | .put b k ct body t => (put_object cfg s b k ct none body t).1
  | .del b k => (delete_object cfg s b k none).1

/-- Run a sequence of operations from the empty initial state. -/
def runOps (cfg : Config) (ops : List Op) : S :=
  ops.foldl (step cfg) S0

/-- Whether any index row currently references the CID. -/
def referenced (s : S) (cid : String) : Bool :=
  s.index.any (fun r => r.cid = cid)

/-- Whether the CID was referenced by an index row at any point of the
run (initial and final states included). -/
def everReferenced (cfg : Config) (ops : List Op) (cid : String) : Bool :=
  (List.range (ops.length + 1)).any
    (fun i => referenced (runOps cfg (ops.take i)) cid)

/-- No `put` in the sequence stores content whose CID has already been
unpinned at that point of the run. -/
def noReAdd (cfg : Config) : S → List Op → Bool
  | _, [] => true
  | s, op :: rest =>
    (match op with
     | .put _ _ _ body _ => !(unpins s).contains (cidOf body)
     | .del _ _ => true) && noReAdd cfg (step cfg s op) rest

/-! ## Claim-support definitions -/

/-- A key containing a `..` segment, a leading `/`, or an embedded NUL byte
(the NUL test is phrased per segment; `/` itself is never NUL). -/
def badKeyB (key : String) : Bool :=
  (splitSegs key).contains ".." || key.data.head? = some '/' ||
    (splitSegs key).any (fun t => t.data.any (fun c => c.toNat = 0))

/-- One frame of the `STREAMING-AWS4-HMAC-SHA256-PAYLOAD` body. -/
structure Frame where
  sizeBytes : List Nat
  signature : List Nat
  payload : List Nat
deriving DecidableEq, Repr

/-- `HEX_SIZE;chunk-signature=<sig>\r\n<payload>\r\n`. -/
def encodeFrame (f : Frame) : List Nat :=
  f.sizeBytes ++ [59] ++ utf8 "chunk-signature=" ++ f.signature ++ [13, 10]
    ++ f.payload ++ [13, 10]

/-- The zero-size terminator frame `Z;chunk-signature=<sig>\r\n\r\n`. -/
def encodeTerminator (z : Frame) : List Nat :=
  z.sizeBytes ++ [59] ++ utf8 "chunk-signature=" ++ z.signature ++ [13, 10] ++ [13, 10]

/-- A whole framed streaming body ending in the zero-size frame. -/
def encodeBody (frames : List Frame) (z : Frame) : List Nat :=
  (frames.map encodeFrame).flatten ++ encodeTerminator z

/-- A well-formed non-terminal frame: the size field is the hex encoding of
the non-zero payload length, and the signature is 64 hex characters. -/
def WFFrame (f : Frame) : Prop :=
  fromStrRadix16 f.sizeBytes = some f.payload.length ∧ f.payload ≠ [] ∧
    f.signature.length = 64 ∧ ∀ b ∈ f.signature, (hexVal? b).isSome

/-- The claim's `find_shallowest_empty_ancestor`, written from the spec's
words for comparison with the code's LIKE-based query: the shallowest
ancestor `A` of the key such that no live row in the bucket has a key with
the literal prefix `A/`. -/
def specShallowestEmptyAncestor (db : List Row) (bucket key : String) :
    Option String :=
  (ancestorStrings key).reverse.find? (fun a =>
    db.all (fun r => ¬ (r.bucket = bucket ∧ (a ++ "/").data.isPrefixOf r.object_key.data)))

/-- Relative depth of ancestors: `a` lies strictly below `b`. -/
def DeeperThan (a b : String) : Prop :=
  ∃ rest, rest ≠ "" ∧ a = b ++ "/" ++ rest

/-! ## Concrete fixtures used by witnesses and counterexamples -/

/-- A configuration with every feature exercised by the scenarios. -/
def cfgFix : Config :=
  { folder_prefix := "buckets", gateway := "https://dweb.link",
    mode := .Auto, trim_empty_folders := true, auto_mime := false,
    concurrent_multipart_upload := 2, dashmap_capacity := 3 }

/-- The same configuration in redirect mode. -/
def cfgRedirect : Config := { cfgFix with mode := .Redirect }

/-- A configuration whose registry's actual `DashMap` capacity is 1. -/
def cfgCap1 : Config :=
  { cfgFix with concurrent_multipart_upload := 1, dashmap_capacity := 1 }

/-- A configuration exhibiting the crate's capacity rounding: 1 slot was
requested, but the `DashMap`'s actual capacity came out larger (hashbrown
guarantees only at least the request). -/
def cfgRound : Config :=
  { cfgFix with concurrent_multipart_upload := 1, dashmap_capacity := 2 }

/-- A stored row fixture. -/
def rowFix : Row :=
  { bucket := "b", object_key := "k", cid := "bafyexample", size := 3,
    content_type := "text/plain", updated_at := 7 }

/-- A state holding exactly `rowFix`. -/
def sRowFix : S := { S0 with index := [rowFix] }

/-- A state with one multipart upload registered (at capacity for
`cfgCap1`). -/
def sOneSlot : S := { S0 with slots := [("upload000001", [])] }

/-- A state with one multipart upload holding parts 2 = `lo`, 1 = `hel`
(in upload order). -/
def sParts : S := { S0 with slots := [("upload000002", [(2, utf8 "lo"), (1, utf8 "hel")])] }

/-- An authorization configuration fixture. -/
def cfgAuth : AuthConfig := { access_key := "AKEXAMPLE", secret_key := "SECRET" }

/-- An unauthenticated request fixture (no credentials anywhere). -/
def reqPlain : Request :=
  { method := "GET", path := "/b/k", query := none, headers := [], body := [] }

/-- A 64-character chunk signature fixture. -/
def sig64 : List Nat := List.replicate 64 97

/-- The spec's example frames: payloads `foo` and `hello`. -/
def frameFoo : Frame := { sizeBytes := utf8 "3", signature := sig64, payload := utf8 "foo" }

def frameHello : Frame := { sizeBytes := utf8 "5", signature := sig64, payload := utf8 "hello" }

def frameZero : Frame := { sizeBytes := utf8 "0", signature := sig64, payload := [] }

/-- The rows remaining after deleting `a_b/x` in the LIKE-wildcard
counterexample: one live row `acb/y` (which matches `LIKE a_b/%` but does
not have the literal prefix `a_b/`). -/
def dbUnderscore : List Row :=
  [{ bucket := "b", object_key := "acb/y", cid := "c1", size := 1,
     content_type := "text/plain", updated_at := 0 }]

/-- Operation sequence: put, delete, re-put the same content, delete —
the same CID becomes unreferenced twice. -/
def opsTwiceUnpinned : List Op :=
  [.put "b" "k" none [1] 0, .del "b" "k", .put "b" "k" none [1] 1, .del "b" "k"]

/-- Operation sequence: put, delete, then re-put the same content under
another key — the CID is unpinned yet referenced at the end. -/
def opsReAdd : List Op :=
  [.put "b" "k" none [1] 0, .del "b" "k", .put "b" "k2" none [1] 1]

/-- Operation sequence for the pin-accounting witness: two keys sharing
one CID, then both deleted. -/
def opsShared : List Op :=
  [.put "b" "k1" none [5] 0, .put "b" "k2" none [5] 1, .del "b" "k1",
   .put "b" "k3" none [6] 2, .del "b" "k2"]

/-- The `(bucket, object_key)` primary key holds: no two index rows share a
key. -/
def keyUnique (idx : List Row) : Prop :=
  idx.Pairwise (fun r1 r2 => ¬ (r1.bucket = r2.bucket ∧ r1.object_key = r2.object_key))

/-! # Theorems -/

set_option maxRecDepth 16000

/-! ## C10: abort-multipart leaves everything but the registry alone -/

/-- **C10.** A `DELETE /{bucket}/{key}` carrying an `uploadId` query
parameter removes only the multipart registry entry for that upload id and
responds `204` with an empty body; the index rows, the MFS view, and the
CAS call log (hence the pin set) are untouched — whether or not an object
exists at the key and whether or not the upload id is known. -/
theorem abort_multipart_frame (cfg : Config) (s : S) (bucket key uid : String) :
    (delete_object cfg s bucket key (some uid)).1.index = s.index ∧
    (delete_object cfg s bucket key (some uid)).1.mfs = s.mfs ∧
    (delete_object cfg s bucket key (some uid)).1.casCalls = s.casCalls ∧
    (delete_object cfg s bucket key (some uid)).1.slots = slots_remove s.slots uid ∧
    (delete_object cfg s bucket key (some uid)).2 =
      { status := 204, headers := [], body := .bytes [] } := by
  refine ⟨rfl, rfl, rfl, rfl, rfl⟩

/-! ## C4: multipart capacity refusal (corrected) -/

/-- **C4 counterexample.** The refusal threshold is the `DashMap`'s actual
`capacity()`, not the configured request: `limited_slots.rs` compares
`len()` against `self.0.capacity()`, and `DashMap::with_capacity(n)` only
guarantees a capacity of at least `n` (hashbrown rounds the request up per
shard). With 1 slot requested and an actual capacity of 2, a registry
already holding the configured 1 upload still accepts a new Create with
`200` instead of answering the claimed `503`. -/
theorem multipart_capacity_counterexample :
    sOneSlot.slots.length = cfgRound.concurrent_multipart_upload ∧
    cfgRound.concurrent_multipart_upload < cfgRound.dashmap_capacity ∧
    (multipart_upload cfgRound sOneSlot "b" "k" (some "") none "uploadFRESH1" 0).2.status
      = 200 ∧
    (multipart_upload cfgRound sOneSlot "b" "k" (some "") none "uploadFRESH1" 0).2.status
      ≠ 503 := by
  refine ⟨?_, ?_, ?_, ?_⟩ <;> decide

/-- **C4 (amended).** The multipart registry refuses exactly at the inner
`DashMap`'s actual `capacity()` (which the crate guarantees only to be at
least the configured `concurrent_multipart_upload`): when the registry
holds `capacity()` uploads, `LimitedSlotsMap::insert` refuses and the
`CreateMultipartUpload` handler responds `503 Service Unavailable` leaving
the state unchanged; strictly below `capacity()` every Create succeeds
with `200` and registers the fresh id; and after an Abort (or the
identical registry removal of a Complete) removes a present upload, a new
Create succeeds with `200`. -/
theorem multipart_capacity_refusal (cfg : Config) (s : S)
    (bucket key bucket2 key2 newId freshId uid : String) (t t2 : Nat)
    (hfull : s.slots.length = cfg.dashmap_capacity)
    (hmem : uid ∈ s.slots.map Prod.fst) :
    slots_insert s.slots cfg.dashmap_capacity newId [] = none ∧
    multipart_upload cfg s bucket key (some "") none newId t
      = (s, statusResponse 503) ∧
    (∀ s2 : S, s2.slots.length < cfg.dashmap_capacity →
      multipart_upload cfg s2 bucket key (some "") none newId t
        = ({ s2 with slots := s2.slots.filter (fun e => e.1 ≠ newId) ++ [(newId, [])] },
           { status := 200, headers := [("content-type", "text/xml")],
             body := .bytes (utf8 (initiateXml bucket key newId)) })) ∧
    (multipart_upload cfg (delete_object cfg s bucket key (some uid)).1
      bucket2 key2 (some "") none freshId t2).2.status = 200 := by
  have hnone : slots_insert s.slots cfg.dashmap_capacity newId [] = none := by
    simp [slots_insert, hfull]
  refine ⟨hnone, ?_, ?_, ?_⟩
  · simp [multipart_upload, hnone]
  · intro s2 h2
    have hsome2 : slots_insert s2.slots cfg.dashmap_capacity newId []
        = some (s2.slots.filter (fun e => e.1 ≠ newId) ++ [(newId, [])]) := by
      simp [slots_insert, h2]
    simp [multipart_upload, hsome2]
  · have hlt : (slots_remove s.slots uid).length < cfg.dashmap_capacity := by
      have : (s.slots.filter (fun e => e.1 ≠ uid)).length < s.slots.length := by
        rw [List.length_filter_lt_length_iff_exists]
        rcases List.mem_map.mp hmem with ⟨e, he, hfst⟩
        exact ⟨e, he, by simp [hfst]⟩
      calc (slots_remove s.slots uid).length < s.slots.length := by
            simpa [slots_remove] using this
        _ ≤ cfg.dashmap_capacity := le_of_eq hfull
    have hsome : slots_insert (slots_remove s.slots uid)
        cfg.dashmap_capacity freshId []
        = some ((slots_remove s.slots uid).filter (fun e => e.1 ≠ freshId) ++ [(freshId, [])]) := by
      simp [slots_insert, hlt]
    simp [multipart_upload, delete_object, hsome]

/-- Witness for **C4 (amended)** at actual capacity 1: one registered
upload, a refused create, a create that succeeds from the empty registry,
then a successful create after the abort. -/
theorem multipart_capacity_refusal_witness :
    sOneSlot.slots.length = cfgCap1.dashmap_capacity ∧
    "upload000001" ∈ sOneSlot.slots.map Prod.fst ∧
    (slots_insert sOneSlot.slots cfgCap1.dashmap_capacity "uploadFRESH1" [] = none ∧
     multipart_upload cfgCap1 sOneSlot "b" "k" (some "") none "uploadFRESH1" 0
       = (sOneSlot, statusResponse 503) ∧
     (∀ s2 : S, s2.slots.length < cfgCap1.dashmap_capacity →
       multipart_upload cfgCap1 s2 "b" "k" (some "") none "uploadFRESH1" 0
         = ({ s2 with slots := s2.slots.filter (fun e => e.1 ≠ "uploadFRESH1")
               ++ [("uploadFRESH1", [])] },
            { status := 200, headers := [("content-type", "text/xml")],
              body := .bytes (utf8 (initiateXml "b" "k" "uploadFRESH1")) })) ∧
     (multipart_upload cfgCap1 (delete_object cfgCap1 sOneSlot "b" "k" (some "upload000001")).1
       "b" "k" (some "") none "uploadFRESH2" 1).2.status = 200) :=
  ⟨by decide, by decide,
   multipart_capacity_refusal cfgCap1 sOneSlot "b" "k" "b" "k" "uploadFRESH1"
     "uploadFRESH2" "upload000001" 0 1 (by decide) (by decide)⟩

/-! ## C8: redirect-mode GetObject (corrected) -/

/-- **C8 counterexample.** In redirect mode the response carries no
`ETag`, `Cache-Control`, or `Last-Modified` header, although proxy mode
carries all three (here: `ETag`): the claim's "same auxiliary response
headers as proxy mode, namely `ETag`, `Cache-Control`, `Last-Modified`,
..." fails on the code. -/
theorem redirect_missing_headers_counterexample :
    (get_object cfgRedirect sRowFix "b" "k" false).status = 307 ∧
    (get_object cfgRedirect sRowFix "b" "k" false).headers.find?
      (fun h => h.1 = "etag") = none ∧
    (get_object cfgRedirect sRowFix "b" "k" false).headers.find?
      (fun h => h.1 = "cache-control") = none ∧
    (get_object cfgRedirect sRowFix "b" "k" false).headers.find?
      (fun h => h.1 = "last-modified") = none ∧
    (proxy cfgRedirect rowFix).headers.find? (fun h => h.1 = "etag")
      = some ("etag", "W/bafyexample") ∧
    (proxy cfgRedirect rowFix).headers.find? (fun h => h.1 = "cache-control")
      = some ("cache-control", "public, max-age=29030400, immutable") := by
  decide

/-- **C8 (amended).** For every stored object, GetObject in redirect mode
responds `307 Temporary Redirect` to `{configured_gateway}/ipfs/{cid}`
with an empty body and exactly the headers `Location`, `x-ipfs-path:
/ipfs/{cid}`, `x-ipfs-roots: {cid}`, and `Content-Type` from the stored
row — omitting the `ETag`, `Cache-Control`, and `Last-Modified` headers
that proxy mode sets. -/
theorem redirect_response (cfg : Config) (s : S) (bucket key : String)
    (ip : Bool) (md : Row)
    (hmode : cfg.mode = .Redirect)
    (hrow : get_object_metadata s.index bucket key = some md) :
    get_object cfg s bucket key ip = redirect cfg md ∧
    (redirect cfg md).status = 307 ∧
    (redirect cfg md).body = .bytes [] ∧
    (redirect cfg md).headers =
      [("location", cfg.gateway ++ ("/ipfs/" ++ md.cid)),
       ("x-ipfs-path", "/ipfs/" ++ md.cid),
       ("x-ipfs-roots", md.cid),
       ("content-type", md.content_type)] := by
  refine ⟨?_, rfl, rfl, rfl⟩
  simp [get_object, hrow, hmode]

/-- Witness for **C8 (amended)** on the stored row fixture. -/
theorem redirect_response_witness :
    get_object_metadata sRowFix.index "b" "k" = some rowFix ∧
    (get_object cfgRedirect sRowFix "b" "k" true = redirect cfgRedirect rowFix ∧
     (redirect cfgRedirect rowFix).status = 307 ∧
     (redirect cfgRedirect rowFix).body = .bytes [] ∧
     (redirect cfgRedirect rowFix).headers =
       [("location", cfgRedirect.gateway ++ ("/ipfs/" ++ rowFix.cid)),
        ("x-ipfs-path", "/ipfs/" ++ rowFix.cid),
        ("x-ipfs-roots", rowFix.cid),
        ("content-type", rowFix.content_type)]) :=
  ⟨by decide, redirect_response cfgRedirect sRowFix "b" "k" true rowFix rfl (by decide)⟩

/-! ## C7: path safety (corrected) -/

/-- `bind` on `Except` reduces on an error scrutinee. -/
theorem except_bind_error {ε α β : Type} (e : ε) (f : α → Except ε β) :
    (Except.error e : Except ε α) >>= f = Except.error e := rfl

/-- `bind` on `Except` reduces on an ok scrutinee. -/
theorem except_bind_ok {ε α β : Type} (a : α) (f : α → Except ε β) :
    (Except.ok a : Except ε α) >>= f = f a := rfl

/-- If a pushed path contains a root, parent, or NUL-carrying component,
the checked fold rejects it. -/
theorem foldlM_pushComponent_error :
    ∀ (comps : List PathComponent) (acc : List String),
      (∃ c ∈ comps, c = PathComponent.rootDir ∨ c = PathComponent.parentDir ∨
        ∃ u, c = PathComponent.normal u ∧ u.data.any (fun ch => ch.toNat = 0) = true) →
      ∃ e, comps.foldlM pushComponent acc = Except.error e
  | [], _, h => by
    rcases h with ⟨c, hc, _⟩
    exact absurd hc (List.not_mem_nil c)
  | c :: rest, acc, h => by
    match c with
    | .rootDir =>
      exact ⟨.UnexpectedRoot,
        by simp [List.foldlM_cons, pushComponent, except_bind_error]⟩
    | .parentDir =>
      exact ⟨.PathTraversalAttack,
        by simp [List.foldlM_cons, pushComponent, except_bind_error]⟩
    | .normal u =>
      by_cases hnul : u.data.any (fun ch => ch.toNat = 0) = true
      · exact ⟨.InvalidCharacter,
          by simp [List.foldlM_cons, pushComponent, hnul, except_bind_error]⟩
      · have hrest : ∃ c ∈ rest, c = PathComponent.rootDir ∨ c = PathComponent.parentDir ∨
            ∃ u, c = PathComponent.normal u ∧ u.data.any (fun ch => ch.toNat = 0) = true := by
          rcases h with ⟨c', hc', hbad⟩
          rcases List.mem_cons.mp hc' with h1 | h2
          · subst h1
            rcases hbad with h' | h' | ⟨u', hu', hn⟩
            · exact absurd h' (by simp)
            · exact absurd h' (by simp)
            · cases hu'
              exact absurd hn hnul
          · exact ⟨c', h2, hbad⟩
        rcases foldlM_pushComponent_error rest (acc ++ [u]) hrest with ⟨e, he⟩
        exact ⟨e, by simp [List.foldlM_cons, pushComponent, hnul, except_bind_ok, he]⟩

/-- A bad key yields a bad parsed component. -/
theorem pathComponents_bad_of_badKey (key : String) (h : badKeyB key = true) :
    ∃ c ∈ pathComponents key, c = PathComponent.rootDir ∨ c = PathComponent.parentDir ∨
      ∃ u, c = PathComponent.normal u ∧ u.data.any (fun ch => ch.toNat = 0) = true := by
  have h' : (".." ∈ splitSegs key) ∨ key.data.head? = some '/' ∨
      ∃ u ∈ splitSegs key, u.data.any (fun ch => ch.toNat = 0) = true := by
    simpa [badKeyB, List.elem_iff, List.any_eq_true, Bool.or_eq_true,
      decide_eq_true_eq, or_assoc] using h
  rcases h' with hdd | hroot | ⟨u, hu, hnul⟩
  · refine ⟨PathComponent.parentDir, ?_, Or.inr (Or.inl rfl)⟩
    have hfil : (".." : String) ∈ (splitSegs key).filter (fun t => t ≠ "" ∧ t ≠ ".") :=
      List.mem_filter.mpr ⟨hdd, by decide⟩
    exact List.mem_append.mpr (Or.inr (List.mem_map.mpr ⟨"..", hfil, by simp⟩))
  · refine ⟨PathComponent.rootDir, ?_, Or.inl rfl⟩
    simp [pathComponents, hroot]
  · have hne : u ≠ "" := by
      intro hu0
      subst hu0
      simp at hnul
    have hnd : u ≠ "." := by
      intro hu0
      subst hu0
      simp at hnul
    have hfil : u ∈ (splitSegs key).filter (fun t => t ≠ "" ∧ t ≠ ".") :=
      List.mem_filter.mpr ⟨hu, by simp [hne, hnd]⟩
    by_cases hpp : u = ".."
    · refine ⟨PathComponent.parentDir, ?_, Or.inr (Or.inl rfl)⟩
      exact List.mem_append.mpr (Or.inr (List.mem_map.mpr ⟨u, hfil, by simp [hpp]⟩))
    · refine ⟨PathComponent.normal u, ?_, Or.inr (Or.inr ⟨u, rfl, hnul⟩)⟩
      exact List.mem_append.mpr (Or.inr (List.mem_map.mpr ⟨u, hfil, by simp [hpp]⟩))

/-- Normalization of a bad key fails, whatever the prefix and bucket. -/
theorem normalized_path_badKey (start bucket key : String) (h : badKeyB key = true) :
    ∃ e, normalized_path start bucket key = Except.error e := by
  unfold normalized_path
  cases h1 : push_checked [] start with
  | error e => exact ⟨e, by simp [h1, except_bind_error]⟩
  | ok a1 =>
    cases h2 : push_checked a1 bucket with
    | error e => exact ⟨e, by simp [h1, h2, except_bind_ok, except_bind_error]⟩
    | ok a2 =>
      rcases foldlM_pushComponent_error (pathComponents key) a2
        (pathComponents_bad_of_badKey key h) with ⟨e, he⟩
      have he' : push_checked a2 key = Except.error e := he
      exact ⟨e, by simp [h1, h2, he', except_bind_ok, except_bind_error]⟩

/-- **C7 (amended).** For every request whose key contains a `..` segment,
a leading `/`, or an embedded NUL byte, path normalization fails and no
CAS call is issued (the state is left untouched); the PutObject handler
responds `400 Bad Request`, while the DeleteObject handler responds `404`
(when no row exists for the key) or `500` (when normalization of a stored
key fails), in both cases before any CAS call. -/
theorem path_safety (cfg : Config) (s : S) (bucket key : String)
    (ct : Option String) (body : List Nat) (t : Nat)
    (h : badKeyB key = true) :
    (∃ e, normalized_path cfg.folder_prefix bucket key = Except.error e) ∧
    put_object cfg s bucket key ct none body t = (s, statusResponse 400) ∧
    (delete_object cfg s bucket key none = (s, statusResponse 404) ∨
     delete_object cfg s bucket key none = (s, statusResponse 500)) := by
  obtain ⟨e, he⟩ := normalized_path_badKey cfg.folder_prefix bucket key h
  refine ⟨⟨e, he⟩, ?_, ?_⟩
  · simp [put_object, he]
  · cases hlook : get_object_metadata s.index bucket key with
    | none =>
      left
      simp [delete_object, hlook]
    | some md =>
      right
      have hlook' : s.index.find?
          (fun r => decide (r.bucket = bucket ∧ r.object_key = key)) = some md := hlook
      have hpred := List.find?_some hlook'
      have hk : md.object_key = key := (of_decide_eq_true hpred).2
      obtain ⟨e2, he2⟩ := normalized_path_badKey cfg.folder_prefix md.bucket
        md.object_key (by rw [hk]; exact h)
      simp [delete_object, hlook, he2]

/-- **C7 counterexample.** A DELETE whose key contains a `..` segment is
answered `404 Not Found`, not the claimed `400 Bad Request`. -/
theorem path_safety_counterexample :
    badKeyB "../x" = true ∧
    delete_object cfgFix S0 "b" "../x" none = (S0, statusResponse 404) ∧
    (404 : Nat) ≠ 400 := by
  decide

/-- Witness for **C7 (amended)** at key `../x`. -/
theorem path_safety_witness :
    badKeyB "../x" = true ∧
    ((∃ e, normalized_path cfgFix.folder_prefix "b" "../x" = Except.error e) ∧
     put_object cfgFix S0 "b" "../x" none none [1] 0 = (S0, statusResponse 400) ∧
     (delete_object cfgFix S0 "b" "../x" none = (S0, statusResponse 404) ∨
      delete_object cfgFix S0 "b" "../x" none = (S0, statusResponse 500))) :=
  ⟨by decide, path_safety cfgFix S0 "b" "../x" none [1] 0 (by decide)⟩

/-! ## C2: the SigV4 gate -/

/-- `is_valid` accepts exactly when the credential matches the configured
access key and the provided signature equals the derived hex HMAC. -/
theorem is_valid_iff (auth : AuthenticationRequest) (config : AuthConfig) :
    is_valid auth config = true ↔
      (auth.credential = utf8 config.access_key ∧
        hexEncode (hmacSha256
          (signingKey config.secret_key auth.date auth.region auth.service)
          auth.string_to_sign) = auth.signature) := by
  unfold is_valid
  by_cases hc : auth.credential = utf8 config.access_key
  · simp [hc]
  · simp [hc]

/-- **C2.** With an `AuthConfig` configured, a request is forwarded to the
downstream handler iff a SigV4 authentication request can be parsed — from
the `Authorization` header or, failing that, from the presigned query
parameters — whose credential equals the configured access key and whose
provided signature equals the hex HMAC-SHA-256 of the derived string to
sign under the key derived from the secret key, date, region and service;
every other request is answered `401 Unauthorized` with an empty body. -/
theorem authorization_forward_iff (config : AuthConfig) (request : Request) :
    ((∃ fwd, authorizationCall config request = .forward request fwd) ↔
      (∃ a, (from_authorization_header request <|> from_query_params request) = some a ∧
        a.credential = utf8 config.access_key ∧
        hexEncode (hmacSha256 (signingKey config.secret_key a.date a.region a.service)
          a.string_to_sign) = a.signature)) ∧
    (∀ resp, authorizationCall config request = .reject resp →
      resp = { status := 401, headers := [], body := .bytes [] }) ∧
    ((¬ ∃ fwd, authorizationCall config request = .forward request fwd) →
      authorizationCall config request = .reject unauthorizedResponse) := by
  cases hp : from_authorization_header request <|> from_query_params request with
  | none =>
    have hc : authorizationCall config request = .reject unauthorizedResponse := by
      simp [authorizationCall, hp]
    refine ⟨⟨?_, ?_⟩, ?_, fun _ => hc⟩
    · rintro ⟨fwd, hf⟩
      rw [hc] at hf
      cases hf
    · rintro ⟨a, ha, -, -⟩
      cases ha
    · intro resp hr
      rw [hc] at hr
      injection hr with h
      exact h.symm
  | some a =>
    by_cases hv : is_valid a config = true
    · have hfwd : ∃ fwd, authorizationCall config request = .forward request fwd := by
        by_cases hs : headerGet request.headers (utf8 "x-amz-content-sha256")
            = some (utf8 "STREAMING-AWS4-HMAC-SHA256-PAYLOAD")
        · exact ⟨.unwrapped (streaming_chunk_body request.body),
            by simp [authorizationCall, hp, hv, hs]⟩
        · exact ⟨.plain request.body, by simp [authorizationCall, hp, hv, hs]⟩
      refine ⟨⟨?_, ?_⟩, ?_, ?_⟩
      · intro _
        exact ⟨a, rfl, (is_valid_iff a config).mp hv⟩
      · intro _
        exact hfwd
      · intro resp hr
        rcases hfwd with ⟨fwd, hf⟩
        rw [hf] at hr
        cases hr
      · intro hn
        exact absurd hfwd hn
    · have hc : authorizationCall config request = .reject unauthorizedResponse := by
        simp [authorizationCall, hp, hv]
      refine ⟨⟨?_, ?_⟩, ?_, fun _ => hc⟩
      · rintro ⟨fwd, hf⟩
        rw [hc] at hf
        cases hf
      · rintro ⟨a', ha', hcred, hsig⟩
        injection ha' with ha''
        subst ha''
        exact absurd ((is_valid_iff a config).mpr ⟨hcred, hsig⟩) hv
      · intro resp hr
        rw [hc] at hr
        injection hr with h
        exact h.symm

/-- Witness for **C2**: a credential-less request is rejected with the
`401` response, and the forwarding criterion instantiates. -/
theorem authorization_forward_iff_witness :
    authorizationCall cfgAuth reqPlain = .reject unauthorizedResponse ∧
    ((∃ fwd, authorizationCall cfgAuth reqPlain = .forward reqPlain fwd) ↔
      (∃ a, (from_authorization_header reqPlain <|> from_query_params reqPlain) = some a ∧
        a.credential = utf8 cfgAuth.access_key ∧
        hexEncode (hmacSha256 (signingKey cfgAuth.secret_key a.date a.region a.service)
          a.string_to_sign) = a.signature)) :=
  ⟨by decide, (authorization_forward_iff cfgAuth reqPlain).1⟩

/-! ## C3: streaming chunked-payload unwrapping -/

/-- `read_until` consumes exactly through the first `;`. -/
theorem readUntilSemi_append (bs rest : List Nat) (h : 59 ∉ bs) :
    readUntilSemi (bs ++ 59 :: rest) = (bs ++ [59], rest) := by
  induction bs with
  | nil => simp [readUntilSemi]
  | cons b bs ih =>
    have hb : b ≠ 59 := fun hbe => h (hbe ▸ List.mem_cons_self b bs)
    have hbs : 59 ∉ bs := fun hm => h (List.mem_cons_of_mem b hm)
    simp [readUntilSemi, hb, ih hbs]

/-- A successful hex parse means every byte is a `+` sign head or a hex
digit. -/
theorem fromStrRadix16_bytes (s : List Nat) (n : Nat)
    (h : fromStrRadix16 s = some n) :
    ∀ b ∈ s, b = 43 ∨ (hexVal? b).isSome = true := by
  have hfold : ∀ (digits : List Nat) (acc m : Nat),
      (digits.foldlM (fun acc b => (hexVal? b).bind (fun d =>
        if acc * 16 + d < 18446744073709551616 then some (acc * 16 + d) else none))
        acc) = some m →
      ∀ b ∈ digits, (hexVal? b).isSome = true := by
    intro digits
    induction digits with
    | nil =>
      intro acc m _ b hb
      cases hb
    | cons d ds ih =>
      intro acc m hsome b hb
      rw [List.foldlM_cons] at hsome
      cases hstep : (hexVal? d).bind (fun v =>
          if acc * 16 + v < 18446744073709551616 then some (acc * 16 + v) else none) with
      | none =>
        rw [hstep] at hsome
        cases hsome
      | some acc' =>
        rw [hstep] at hsome
        have hsome' : ds.foldlM (fun acc b => (hexVal? b).bind (fun d =>
            if acc * 16 + d < 18446744073709551616 then some (acc * 16 + d) else none))
            acc' = some m := hsome
        rcases List.mem_cons.mp hb with rfl | hmem
        · cases hv : hexVal? b with
          | none =>
            rw [hv] at hstep
            cases hstep
          | some v => simp [hv]
        · exact ih acc' m hsome' b hmem
  intro b hb
  unfold fromStrRadix16 at h
  by_cases hplus : s.head? = some 43
  · rw [if_pos hplus] at h
    by_cases hemp : s.tail.isEmpty
    · rw [if_pos hemp] at h
      cases h
    · rw [if_neg hemp] at h
      cases s with
      | nil => cases hb
      | cons c cs =>
        have hc : c = 43 := by
          have := hplus
          simp only [List.head?] at this
          injection this
        rcases List.mem_cons.mp hb with rfl | hmem
        · exact Or.inl hc
        · exact Or.inr (hfold cs 0 n h b hmem)
  · rw [if_neg hplus] at h
    by_cases hemp : s.isEmpty
    · rw [if_pos hemp] at h
      cases h
    · rw [if_neg hemp] at h
      exact Or.inr (hfold s 0 n h b hb)

/-- `;` never appears in a successfully parsed hex size field. -/
theorem fromStrRadix16_no_semi (s : List Nat) (n : Nat)
    (h : fromStrRadix16 s = some n) : 59 ∉ s := by
  intro hmem
  rcases fromStrRadix16_bytes s n h 59 hmem with h' | h'
  · cases h'
  · rw [show hexVal? 59 = none from rfl] at h'
    cases h'

/-- ASCII byte strings are valid UTF-8. -/
theorem isValidUtf8_ascii (l : List Nat) (h : ∀ b ∈ l, b < 128) :
    isValidUtf8 l = true := by
  unfold isValidUtf8
  induction l with
  | nil => rfl
  | cons b bs ih =>
    have hb : b < 128 := h b (List.mem_cons_self b bs)
    have hbs : ∀ x ∈ bs, x < 128 := fun x hx => h x (List.mem_cons_of_mem b hx)
    rw [utf8Go.eq_def]
    simp only []
    rw [if_pos hb]
    exact ih hbs

/-- Hex size fields are ASCII. -/
theorem fromStrRadix16_ascii (s : List Nat) (n : Nat)
    (h : fromStrRadix16 s = some n) : ∀ b ∈ s, b < 128 := by
  intro b hb
  rcases fromStrRadix16_bytes s n h b hb with rfl | h'
  · omega
  · unfold hexVal? at h'
    split at h' <;> try omega
    split at h' <;> try omega
    split at h' <;> try omega
    cases h'

theorem encodeBody_cons (f : Frame) (frames : List Frame) (z : Frame) :
    encodeBody (f :: frames) z = encodeFrame f ++ encodeBody frames z := by
  simp [encodeBody]

/-- The unwrapping loop consumes a well-formed framed body into its
payloads, for any sufficient fuel. -/
theorem unwrapChunksGo_encodeBody :
    ∀ (frames : List Frame) (z : Frame) (fuel : Nat),
      (∀ f ∈ frames, WFFrame f) →
      fromStrRadix16 z.sizeBytes = some 0 →
      (encodeBody frames z).length < fuel →
      unwrapChunksGo fuel (encodeBody frames z)
        = .ok (frames.map (fun f => f.payload)) := by
  intro frames
  induction frames with
  | nil =>
    intro z fuel hwf hz hfuel
    match fuel, hfuel with
    | m + 1, hfuel =>
      have hsemi : 59 ∉ z.sizeBytes := fromStrRadix16_no_semi _ _ hz
      have hshape : encodeBody [] z
          = z.sizeBytes ++ 59 :: (utf8 "chunk-signature=" ++ z.signature
              ++ ([13, 10] ++ [13, 10])) := by
        simp [encodeBody, encodeTerminator]
      have hread : readUntilSemi (encodeBody [] z)
          = (z.sizeBytes ++ [59], utf8 "chunk-signature=" ++ z.signature
              ++ ([13, 10] ++ [13, 10])) := by
        rw [hshape, readUntilSemi_append _ _ hsemi]
      have hvalid : isValidUtf8 (z.sizeBytes ++ [59]).dropLast = true := by
        rw [List.dropLast_concat]
        exact isValidUtf8_ascii _ (fromStrRadix16_ascii _ _ hz)
      rw [unwrapChunksGo.eq_def]
      simp only [hread, List.dropLast_concat]
      rw [if_neg (by simp)]
      rw [if_neg (by simp [isValidUtf8_ascii _ (fromStrRadix16_ascii _ _ hz)])]
      rw [hz]
      simp
  | cons f frames ih =>
    intro z fuel hwf hz hfuel
    match fuel, hfuel with
    | m + 1, hfuel =>
      have hwff : WFFrame f := hwf f (List.mem_cons_self f frames)
      have hwfrest : ∀ g ∈ frames, WFFrame g :=
        fun g hg => hwf g (List.mem_cons_of_mem f hg)
      obtain ⟨hsize, hpay, hsig, -⟩ := hwff
      have hsemi : 59 ∉ f.sizeBytes := fromStrRadix16_no_semi _ _ hsize
      have hshape : encodeBody (f :: frames) z
          = f.sizeBytes ++ 59 :: ((utf8 "chunk-signature=" ++ f.signature ++ [13, 10])
              ++ (f.payload ++ ([13, 10] ++ encodeBody frames z))) := by
        rw [encodeBody_cons]
        simp [encodeFrame]
      have hread : readUntilSemi (encodeBody (f :: frames) z)
          = (f.sizeBytes ++ [59], (utf8 "chunk-signature=" ++ f.signature ++ [13, 10])
              ++ (f.payload ++ ([13, 10] ++ encodeBody frames z))) := by
        rw [hshape, readUntilSemi_append _ _ hsemi]
      have h82 : (utf8 "chunk-signature=" ++ f.signature ++ [13, 10]).length = 82 := by
        have h16 : (utf8 "chunk-signature=").length = 16 := by decide
        simp [h16, hsig]
      have hdrop82 : List.drop 82 ((utf8 "chunk-signature=" ++ f.signature ++ [13, 10])
            ++ (f.payload ++ ([13, 10] ++ encodeBody frames z)))
          = f.payload ++ ([13, 10] ++ encodeBody frames z) := by
        rw [← h82]
        exact List.drop_left _ _
      have htake : List.take f.payload.length
            (f.payload ++ ([13, 10] ++ encodeBody frames z)) = f.payload :=
        List.take_left _ _
      have hdroppay : List.drop f.payload.length
            (f.payload ++ ([13, 10] ++ encodeBody frames z))
          = [13, 10] ++ encodeBody frames z :=
        List.drop_left _ _
      have hlenrest : (encodeBody frames z).length < m := by
        have hb := congrArg List.length hshape
        simp [List.length_append] at hb
        omega
      have hrec := ih z m hwfrest hz hlenrest
      have hpaylen : f.payload.length ≠ 0 := by
        intro h0
        exact hpay (List.length_eq_zero.mp h0)
      have hTlen : ¬ (((utf8 "chunk-signature=" ++ f.signature ++ [13, 10])
            ++ (f.payload ++ ([13, 10] ++ encodeBody frames z))).length < 82) := by
        have h16 : (utf8 "chunk-signature=").length = 16 := by decide
        simp only [List.length_append, h16, hsig, List.length_cons, not_lt]
        omega
      rw [unwrapChunksGo.eq_def]
      simp only [hread, List.dropLast_concat]
      rw [if_neg (by simp)]
      rw [if_neg (by simp [isValidUtf8_ascii _ (fromStrRadix16_ascii _ _ hsize)])]
      rw [hsize]
      simp only [hpaylen, if_false, if_neg hTlen, hdrop82]
      rw [if_neg (by simp)]
      simp only [htake, hdroppay]
      rw [if_neg (by simp)]
      have hdrop2 : List.drop 2 ([13, 10] ++ encodeBody frames z)
          = encodeBody frames z := rfl
      rw [hdrop2, hrec]
      rfl

/-- **C3.** For every accepted request carrying `x-amz-content-sha256:
STREAMING-AWS4-HMAC-SHA256-PAYLOAD`, the body handed downstream is the
unwrapped chunk stream; unwrapping a well-formed sequence of
`HEX_SIZE;chunk-signature=<64 hex>\r\n<SIZE bytes>\r\n` frames terminated
by a zero-size frame yields exactly the frames' payloads in order (their
concatenation); and a parse failure (here: a non-hex size field) surfaces
as a stream error. -/
theorem streaming_unwrap :
    (∀ (config : AuthConfig) (request : Request) (fwd : ForwardedBody),
      authorizationCall config request = .forward request fwd →
      headerGet request.headers (utf8 "x-amz-content-sha256")
        = some (utf8 "STREAMING-AWS4-HMAC-SHA256-PAYLOAD") →
      fwd = .unwrapped (streaming_chunk_body request.body)) ∧
    (∀ (frames : List Frame) (z : Frame),
      (∀ f ∈ frames, WFFrame f) →
      fromStrRadix16 z.sizeBytes = some 0 →
      streaming_chunk_body (encodeBody frames z)
        = .ok (frames.map (fun f => f.payload))) ∧
    (∀ rest : List Nat,
      streaming_chunk_body (utf8 "zz;" ++ rest) = .error .ParseInt) := by
  refine ⟨?_, ?_, ?_⟩
  · intro config request fwd hcall hhdr
    unfold authorizationCall at hcall
    cases hp : from_authorization_header request <|> from_query_params request with
    | none =>
      rw [hp] at hcall
      cases hcall
    | some a =>
      rw [hp] at hcall
      simp only [] at hcall
      by_cases hv : is_valid a config = true
      · rw [if_pos hv, if_pos hhdr] at hcall
        injection hcall with _ hbody
        exact hbody.symm
      · rw [if_neg hv] at hcall
        cases hcall
  · intro frames z hwf hz
    exact unwrapChunksGo_encodeBody frames z _ hwf hz (Nat.lt_succ_self _)
  · intro rest
    have hshape : utf8 "zz;" ++ rest = [122, 122] ++ 59 :: rest := rfl
    have hread : readUntilSemi (utf8 "zz;" ++ rest) = ([122, 122] ++ [59], rest) := by
      rw [hshape]
      exact readUntilSemi_append [122, 122] rest (by decide)
    have hlen : (utf8 "zz;" ++ rest).length = rest.length + 3 := by
      have h3 : (utf8 "zz;").length = 3 := by decide
      rw [List.length_append, h3]
      omega
    unfold streaming_chunk_body
    rw [hlen]
    rw [show rest.length + 3 + 1 = (rest.length + 3) + 1 from rfl]
    rw [unwrapChunksGo.eq_def]
    simp only [hread, List.dropLast_concat]
    rw [if_neg (by simp)]
    rw [if_neg (by decide)]
    rw [show fromStrRadix16 [122, 122] = none from by decide]

/-- Witness for **C3**: the spec's `foo`/`hello` example body unwraps to
exactly `foohello`. -/
theorem streaming_unwrap_witness :
    ((∀ f ∈ [frameFoo, frameHello], WFFrame f) ∧
      fromStrRadix16 frameZero.sizeBytes = some 0) ∧
    streaming_chunk_body (encodeBody [frameFoo, frameHello] frameZero)
      = .ok [utf8 "foo", utf8 "hello"] ∧
    (utf8 "foo" ++ utf8 "hello" = utf8 "foohello") :=
  ⟨⟨by simp only [WFFrame]; decide, by decide⟩,
   streaming_unwrap.2.1 [frameFoo, frameHello] frameZero
     (by simp only [WFFrame]; decide) (by decide),
   by decide⟩

/-! ## C9: re-PUT is an idempotent upsert -/

/-- Upserting the same `(bucket, key)` twice equals upserting once with
the second values. -/
theorem store_store (db : List Row) (b k c1 c2 : String) (s1 s2 : Int)
    (ct1 ct2 : String) (t1 t2 : Nat) :
    store_object_metadata (store_object_metadata db b k c1 s1 ct1 t1) b k c2 s2 ct2 t2
      = store_object_metadata db b k c2 s2 ct2 t2 := by
  unfold store_object_metadata
  rw [List.filter_append]
  simp [List.filter_filter]

/-- Looking up a freshly upserted row. -/
theorem get_store (db : List Row) (b k cid : String) (size : Int) (ct : String)
    (t : Nat) :
    get_object_metadata (store_object_metadata db b k cid size ct t) b k
      = some { bucket := b, object_key := k, cid, size, content_type := ct,
               updated_at := t } := by
  unfold get_object_metadata store_object_metadata
  rw [List.find?_append]
  have hnone : (db.filter (fun r => ¬ (r.bucket = b ∧ r.object_key = k))).find?
      (fun r => decide (r.bucket = b ∧ r.object_key = k)) = none := by
    rw [List.find?_eq_none]
    intro r hr hp
    exact (of_decide_eq_true (List.mem_filter.mp hr).2) (of_decide_eq_true hp)
  rw [hnone]
  simp

/-- `unpin_if_orphan` never touches the index. -/
theorem unpin_if_orphan_index (s : S) (md : Row) :
    (unpin_if_orphan s md).index = s.index := by
  unfold unpin_if_orphan
  split <;> rfl

/-- The index left by a successful PutObject. -/
theorem put_object_index (cfg : Config) (s : S) (bucket key : String)
    (ct : Option String) (body : List Nat) (t : Nat) (path : String)
    (hnorm : normalized_path cfg.folder_prefix bucket key = .ok path) :
    (put_object cfg s bucket key ct none body t).1.index
      = store_object_metadata s.index bucket key (cidOf body) body.length
          (resolve_content_type cfg key ct) t := by
  unfold put_object
  rw [hnorm]
  simp only [add_content]
  cases hold : get_object_metadata s.index bucket key with
  | none => rfl
  | some o =>
    simp only []
    by_cases hc : o.cid ≠ cidOf body
    · rw [if_pos hc, unpin_if_orphan_index]
    · rw [if_neg hc]

/-- The response of a successful PutObject. -/
theorem put_object_resp (cfg : Config) (s : S) (bucket key : String)
    (ct : Option String) (body : List Nat) (t : Nat) (path : String)
    (hnorm : normalized_path cfg.folder_prefix bucket key = .ok path) :
    (put_object cfg s bucket key ct none body t).2
      = { status := 200,
          headers := [("content-length", "0"), ("etag", etag_value (cidOf body)),
                      ("x-ipfs-roots", cidOf body),
                      ("x-ipfs-path", "/ipfs/" ++ cidOf body)],
          body := .bytes [] } := by
  unfold put_object
  rw [hnorm]
  rfl

/-- **C9.** For every `(bucket, key, bytes)`, two successive PutObject
calls leave the index in the same state as one, with the row's
`updated_at` refreshed by the second call, and both responses carry the
identical `ETag: W/{cid}`. -/
theorem upsert_idempotent (cfg : Config) (s : S) (bucket key : String)
    (ct : Option String) (body : List Nat) (t1 t2 : Nat) (path : String)
    (hnorm : normalized_path cfg.folder_prefix bucket key = .ok path) :
    (put_object cfg (put_object cfg s bucket key ct none body t1).1
        bucket key ct none body t2).1.index
      = (put_object cfg s bucket key ct none body t2).1.index ∧
    get_object_metadata (put_object cfg (put_object cfg s bucket key ct none body t1).1
        bucket key ct none body t2).1.index bucket key
      = some { bucket, object_key := key, cid := cidOf body,
               size := body.length,
               content_type := resolve_content_type cfg key ct,
               updated_at := t2 } ∧
    (put_object cfg s bucket key ct none body t1).2.headers.find?
        (fun h => h.1 = "etag")
      = (put_object cfg (put_object cfg s bucket key ct none body t1).1
          bucket key ct none body t2).2.headers.find? (fun h => h.1 = "etag") ∧
    (put_object cfg s bucket key ct none body t1).2.headers.find?
        (fun h => h.1 = "etag")
      = some ("etag", etag_value (cidOf body)) := by
  have hidx1 := put_object_index cfg s bucket key ct body t1 path hnorm
  have hidx2 := put_object_index cfg (put_object cfg s bucket key ct none body t1).1
    bucket key ct body t2 path hnorm
  have hidxs := put_object_index cfg s bucket key ct body t2 path hnorm
  have hdouble : (put_object cfg (put_object cfg s bucket key ct none body t1).1
      bucket key ct none body t2).1.index
      = store_object_metadata s.index bucket key (cidOf body) body.length
          (resolve_content_type cfg key ct) t2 := by
    rw [hidx2, hidx1, store_store]
  refine ⟨?_, ?_, ?_, ?_⟩
  · rw [hdouble, hidxs]
  · rw [hdouble, get_store]
  · rw [put_object_resp cfg s bucket key ct body t1 path hnorm,
      put_object_resp cfg (put_object cfg s bucket key ct none body t1).1
        bucket key ct body t2 path hnorm]
  · rw [put_object_resp cfg s bucket key ct body t1 path hnorm]
    rfl

/-- Witness for **C9** on a concrete double PUT. -/
theorem upsert_idempotent_witness :
    normalized_path cfgFix.folder_prefix "b" "k" = .ok "/buckets/b/k" ∧
    ((put_object cfgFix (put_object cfgFix S0 "b" "k" none none [1, 2] 5).1
        "b" "k" none none [1, 2] 9).1.index
      = (put_object cfgFix S0 "b" "k" none none [1, 2] 9).1.index ∧
    get_object_metadata (put_object cfgFix (put_object cfgFix S0 "b" "k" none none [1, 2] 5).1
        "b" "k" none none [1, 2] 9).1.index "b" "k"
      = some { bucket := "b", object_key := "k", cid := cidOf [1, 2],
               size := ([1, 2] : List Nat).length,
               content_type := resolve_content_type cfgFix "k" none,
               updated_at := 9 } ∧
    (put_object cfgFix S0 "b" "k" none none [1, 2] 5).2.headers.find?
        (fun h => h.1 = "etag")
      = (put_object cfgFix (put_object cfgFix S0 "b" "k" none none [1, 2] 5).1
          "b" "k" none none [1, 2] 9).2.headers.find? (fun h => h.1 = "etag") ∧
    (put_object cfgFix S0 "b" "k" none none [1, 2] 5).2.headers.find?
        (fun h => h.1 = "etag")
      = some ("etag", etag_value (cidOf [1, 2]))) :=
  ⟨by decide, upsert_idempotent cfgFix S0 "b" "k" none [1, 2] 5 9 "/buckets/b/k" (by decide)⟩

/-! ## C5: multipart part ordering and replacement -/

/-- Sorting any permutation of a strictly key-ascending parts list by key
recovers that list. -/
theorem insertionSort_eq_of_perm (parts sorted : Parts)
    (hperm : parts.Perm sorted)
    (hchain : List.Chain' (fun a b : Int × List Nat => a.1 < b.1) sorted) :
    parts.insertionSort (fun a b => a.1 ≤ b.1) = sorted := by
  haveI hTrans : IsTrans (Int × List Nat) (fun a b => a.1 < b.1) :=
    ⟨fun _ _ _ hab hbc => lt_trans hab hbc⟩
  haveI : IsTotal (Int × List Nat) (fun a b => a.1 ≤ b.1) :=
    ⟨fun a b => le_total a.1 b.1⟩
  haveI : IsTrans (Int × List Nat) (fun a b => a.1 ≤ b.1) :=
    ⟨fun _ _ _ hab hbc => le_trans hab hbc⟩
  haveI : IsAntisymm (Int × List Nat)
      (fun a b => a.1 < b.1 ∨ a = b) :=
    ⟨fun a b hab hba => by
      rcases hab with hab | hab
      · rcases hba with hba | hba
        · exact absurd hba (lt_asymm hab)
        · exact hba.symm
      · exact hab⟩
  have hpermIS : (parts.insertionSort (fun a b => a.1 ≤ b.1)).Perm sorted :=
    (List.perm_insertionSort _ parts).trans hperm
  have hpwSorted : List.Pairwise (fun a b : Int × List Nat => a.1 < b.1) sorted :=
    List.chain'_iff_pairwise.mp hchain
  have hsortIS : List.Sorted (fun a b : Int × List Nat => a.1 ≤ b.1)
      (parts.insertionSort (fun a b => a.1 ≤ b.1)) :=
    List.sorted_insertionSort _ parts
  have hneIS : List.Pairwise (fun a b : Int × List Nat => a.1 ≠ b.1)
      (parts.insertionSort (fun a b => a.1 ≤ b.1)) := by
    have h1 : List.Pairwise (fun a b : Int × List Nat => a.1 ≠ b.1) sorted :=
      hpwSorted.imp (fun h => ne_of_lt h)
    exact (hpermIS.pairwise_iff (fun h => Ne.symm h)).mpr h1
  have hltIS : List.Pairwise (fun a b : Int × List Nat => a.1 < b.1)
      (parts.insertionSort (fun a b => a.1 ≤ b.1)) :=
    (hsortIS.and hneIS).imp (fun h => lt_of_le_of_ne h.1 h.2)
  have hs1 : List.Sorted (fun a b : Int × List Nat => a.1 < b.1 ∨ a = b)
      (parts.insertionSort (fun a b => a.1 ≤ b.1)) :=
    hltIS.imp (fun h => Or.inl h)
  have hs2 : List.Sorted (fun a b : Int × List Nat => a.1 < b.1 ∨ a = b) sorted :=
    hpwSorted.imp (fun h => Or.inl h)
  exact List.eq_of_perm_of_sorted hpermIS hs1 hs2

/-- A successful PutObject records its `add` CAS call. -/
theorem put_object_add_mem (cfg : Config) (s : S) (bucket key : String)
    (ct : Option String) (body : List Nat) (t : Nat) (path : String)
    (hnorm : normalized_path cfg.folder_prefix bucket key = .ok path) :
    CasCall.add path body ∈ (put_object cfg s bucket key ct none body t).1.casCalls := by
  unfold put_object
  rw [hnorm]
  simp only [add_content]
  cases hold : get_object_metadata s.index bucket key with
  | none => simp
  | some o =>
    simp only []
    by_cases hc : o.cid ≠ cidOf body
    · rw [if_pos hc]
      unfold unpin_if_orphan
      split <;> simp
    · rw [if_neg hc]
      simp

/-- Replacement under an existing part number keeps other part numbers
untouched. -/
theorem find?_map_replace (parts : Parts) (pn pn' : Int) (bytes : List Nat)
    (h : pn' ≠ pn) :
    (parts.map (fun e => if e.1 = pn then (pn, bytes) else e)).find?
        (fun e => decide (e.1 = pn'))
      = parts.find? (fun e => decide (e.1 = pn')) := by
  induction parts with
  | nil => rfl
  | cons e es ih =>
    by_cases he : e.1 = pn
    · simp only [List.map_cons, if_pos he, List.find?_cons]
      have h1 : (decide ((pn, bytes).1 = pn')) = false := by
        apply decide_eq_false
        exact fun hc => h hc.symm
      have h2 : (decide (e.1 = pn')) = false := by
        apply decide_eq_false
        exact fun hc => h (hc.symm.trans he)
      rw [h1, h2]
      exact ih
    · simp only [List.map_cons, if_neg he, List.find?_cons]
      cases hd : decide (e.1 = pn')
      · exact ih
      · rfl

/-- **C5.** For a multipart upload whose final parts have strictly
ascending part numbers `p₁ < … < pₙ` once sorted (upload order
arbitrary), CompleteMultipartUpload adds to the CAS an object whose bytes
are exactly the concatenation of the parts in ascending part-number
order, and stores the matching index row; and uploading a part under an
already-used part number replaces the stored bytes for that number,
leaving other numbers untouched. -/
theorem multipart_ordering :
    (∀ (cfg : Config) (s : S) (bucket key uid : String) (parts sorted : Parts)
        (t : Nat) (path : String),
      slots_get s.slots uid = some parts →
      parts.Perm sorted →
      List.Chain' (fun a b : Int × List Nat => a.1 < b.1) sorted →
      normalized_path cfg.folder_prefix bucket key = .ok path →
      completeBody parts = ((sorted.map (fun e => e.2)).flatten) ∧
      CasCall.add path ((sorted.map (fun e => e.2)).flatten)
        ∈ (multipart_upload cfg s bucket key none (some uid) "" t).1.casCalls ∧
      get_object_metadata
          (multipart_upload cfg s bucket key none (some uid) "" t).1.index bucket key
        = some { bucket, object_key := key,
                 cid := cidOf ((sorted.map (fun e => e.2)).flatten),
                 size := ((sorted.map (fun e => e.2)).flatten).length,
                 content_type := resolve_content_type cfg key none,
                 updated_at := t }) ∧
    (∀ (parts : Parts) (pn : Int) (bytes : List Nat),
      parts_get (parts_insert parts pn bytes) pn = some bytes ∧
      ∀ pn', pn' ≠ pn →
        parts_get (parts_insert parts pn bytes) pn' = parts_get parts pn') := by
  constructor
  · intro cfg s bucket key uid parts sorted t path hslot hperm hchain hnorm
    have hbody : completeBody parts = (sorted.map (fun e => e.2)).flatten := by
      unfold completeBody
      rw [insertionSort_eq_of_perm parts sorted hperm hchain]
    have hmu : multipart_upload cfg s bucket key none (some uid) "" t
        = (let s1 : S := { s with slots := slots_remove s.slots uid }
           let sr := put_object cfg s1 bucket key none none (completeBody parts) t
           if sr.2.status = 200 then
             let etag := ((sr.2.headers.find? (fun h => h.1 = "etag")).map
               (fun h => h.2)).getD ""
             (sr.1, { status := 200, headers := [],
                      body := .bytes (utf8 (completeXml bucket key etag)) })
           else sr) := by
      unfold multipart_upload
      simp only [Option.isSome_none, Bool.false_eq_true, if_false, hslot]
    have hresp := put_object_resp cfg { s with slots := slots_remove s.slots uid }
      bucket key none (completeBody parts) t path hnorm
    have h200 : (put_object cfg { s with slots := slots_remove s.slots uid }
        bucket key none none (completeBody parts) t).2.status = 200 := by
      rw [hresp]
    refine ⟨hbody, ?_, ?_⟩
    · rw [hmu]
      simp only [h200, if_pos]
      rw [← hbody]
      exact put_object_add_mem cfg _ bucket key none (completeBody parts) t path hnorm
    · rw [hmu]
      simp only [h200, if_pos]
      rw [put_object_index cfg _ bucket key none (completeBody parts) t path hnorm,
        hbody, get_store]
  · intro parts pn bytes
    constructor
    · unfold parts_insert parts_get
      by_cases hmem : parts.any (fun e => decide (e.1 = pn))
      · rw [if_pos hmem]
        induction parts with
        | nil => cases hmem
        | cons e es ih =>
          by_cases he : e.1 = pn
          · simp [List.find?_cons, he]
          · simp only [List.map_cons, if_neg he, List.find?_cons]
            have h2 : (decide (e.1 = pn)) = false := by simp [he]
            rw [h2]
            have hmem' : es.any (fun e => decide (e.1 = pn)) := by
              rcases List.any_eq_true.mp hmem with ⟨x, hx, hpx⟩
              rcases List.mem_cons.mp hx with rfl | hxs
              · exact absurd (of_decide_eq_true hpx) he
              · exact List.any_eq_true.mpr ⟨x, hxs, hpx⟩
            exact ih hmem'
      · rw [if_neg hmem]
        rw [List.find?_append]
        have hnone : parts.find? (fun e => decide (e.1 = pn)) = none := by
          rw [List.find?_eq_none]
          intro e he hp
          exact hmem (List.any_eq_true.mpr ⟨e, he, hp⟩)
        rw [hnone]
        simp
    · intro pn' hne
      unfold parts_insert parts_get
      by_cases hmem : parts.any (fun e => decide (e.1 = pn))
      · rw [if_pos hmem, find?_map_replace parts pn pn' bytes hne]
      · rw [if_neg hmem, List.find?_append]
        have hlast : List.find? (fun e => decide (e.1 = pn')) [(pn, bytes)] = none := by
          have hd : (decide ((pn, bytes).1 = pn')) = false :=
            decide_eq_false (fun hc => hne hc.symm)
          simp [List.find?_cons, hd]
        rw [hlast]
        simp

/-- Witness for **C5**: parts 2 = `lo`, 1 = `hel` complete to `hello`,
and re-inserting part 2 replaces it. -/
theorem multipart_ordering_witness :
    (slots_get sParts.slots "upload000002" = some [(2, utf8 "lo"), (1, utf8 "hel")] ∧
     normalized_path cfgFix.folder_prefix "b" "kk" = .ok "/buckets/b/kk") ∧
    (completeBody [(2, utf8 "lo"), (1, utf8 "hel")]
        = (([((1 : Int), utf8 "hel"), (2, utf8 "lo")].map
            (fun e : Int × List Nat => e.2)).flatten) ∧
      CasCall.add "/buckets/b/kk"
          (([((1 : Int), utf8 "hel"), (2, utf8 "lo")].map
            (fun e : Int × List Nat => e.2)).flatten)
        ∈ (multipart_upload cfgFix sParts "b" "kk" none (some "upload000002") "" 3).1.casCalls ∧
      get_object_metadata
          (multipart_upload cfgFix sParts "b" "kk" none (some "upload000002") "" 3).1.index
          "b" "kk"
        = some { bucket := "b", object_key := "kk",
                 cid := cidOf (([((1 : Int), utf8 "hel"), (2, utf8 "lo")].map
                   (fun e : Int × List Nat => e.2)).flatten),
                 size := (([((1 : Int), utf8 "hel"), (2, utf8 "lo")].map
                   (fun e : Int × List Nat => e.2)).flatten).length,
                 content_type := resolve_content_type cfgFix "kk" none,
                 updated_at := 3 }) ∧
    parts_get (parts_insert [(2, utf8 "lo"), (1, utf8 "hel")] 2 (utf8 "LO")) 2
      = some (utf8 "LO") :=
  ⟨⟨by decide, by decide⟩,
   multipart_ordering.1 cfgFix sParts "b" "kk" "upload000002"
     [(2, utf8 "lo"), (1, utf8 "hel")] [((1 : Int), utf8 "hel"), (2, utf8 "lo")]
     3 "/buckets/b/kk" (by decide) (by decide)
     (by simp [List.chain'_cons]) (by decide),
   by decide⟩

/-! ## C6: shallowest removable directory (corrected) -/

/-- A lone `%` matches anything. -/
theorem likeMatch_percent : ∀ s : List Char, likeMatch ['%'] s = true
  | [] => rfl
  | d :: s => by
    have : likeMatch [] [] = true := rfl
    simp only [likeMatch, if_pos rfl]
    exact List.any_eq_true.mpr ⟨[], (List.mem_tails _ _).mpr List.nil_suffix, rfl⟩

/-- `%`-headed patterns match exactly the strings with a matching suffix. -/
theorem likeMatch_percent_cons_iff (p : List Char) :
    ∀ s : List Char, likeMatch ('%' :: p) s = true ↔
      ∃ t, t <:+ s ∧ likeMatch p t = true
  | [] => by
    constructor
    · intro h
      refine ⟨[], List.nil_suffix, ?_⟩
      simpa [likeMatch] using h
    · rintro ⟨t, ht, hp⟩
      have : t = [] := List.suffix_nil.mp ht
      subst this
      simpa [likeMatch] using hp
  | d :: s => by
    constructor
    · intro h
      have h' : ((d :: s).tails).any (fun t => likeMatch p t) = true := by
        simpa [likeMatch] using h
      rcases List.any_eq_true.mp h' with ⟨t, ht, hmt⟩
      exact ⟨t, (List.mem_tails _ _).mp ht, hmt⟩
    · rintro ⟨t, ht, hp⟩
      have h' : ((d :: s).tails).any (fun t => likeMatch p t) = true :=
        List.any_eq_true.mpr ⟨t, (List.mem_tails _ _).mpr ht, hp⟩
      simpa [likeMatch] using h'

/-- LIKE matching decomposes over pattern concatenation. -/
theorem likeMatch_append : ∀ (p q s : List Char),
    likeMatch (p ++ q) s = true ↔
      ∃ s1 s2, s = s1 ++ s2 ∧ likeMatch p s1 = true ∧ likeMatch q s2 = true := by
  intro p
  induction p with
  | nil =>
    intro q s
    constructor
    · intro h
      exact ⟨[], s, rfl, rfl, h⟩
    · rintro ⟨s1, s2, rfl, h1, h2⟩
      have hs1 : s1 = [] := by
        simpa [likeMatch, List.isEmpty_iff] using h1
      subst hs1
      simpa using h2
  | cons c p ih =>
    intro q s
    by_cases hc : c = '%'
    · subst hc
      rw [show ('%' :: p) ++ q = '%' :: (p ++ q) from rfl,
        likeMatch_percent_cons_iff]
      constructor
      · rintro ⟨t, ⟨pre, rfl⟩, hmt⟩
        rcases (ih q t).mp hmt with ⟨t1, t2, rfl, h1, h2⟩
        refine ⟨pre ++ t1, t2, by simp, ?_, h2⟩
        exact (likeMatch_percent_cons_iff p (pre ++ t1)).mpr
          ⟨t1, List.suffix_append pre t1, h1⟩
      · rintro ⟨s1, s2, rfl, hps1, h2⟩
        rcases (likeMatch_percent_cons_iff p s1).mp hps1 with ⟨u, ⟨pre, rfl⟩, hpu⟩
        refine ⟨u ++ s2, ⟨pre, by simp⟩, ?_⟩
        exact (ih q (u ++ s2)).mpr ⟨u, s2, rfl, hpu, h2⟩
    · by_cases hd : c = '_'
      · subst hd
        cases s with
        | nil =>
          constructor
          · intro h
            exact absurd h (by simp [likeMatch])
          · rintro ⟨s1, s2, hsplit, h1, h2⟩
            rcases (List.append_eq_nil.mp hsplit.symm) with ⟨rfl, -⟩
            exact absurd h1 (by simp [likeMatch])
        | cons d s' =>
          have heq : likeMatch (('_' :: p) ++ q) (d :: s') = likeMatch (p ++ q) s' := by
            simp [likeMatch]
          rw [heq, ih q s']
          constructor
          · rintro ⟨t1, t2, rfl, h1, h2⟩
            refine ⟨d :: t1, t2, rfl, ?_, h2⟩
            simpa [likeMatch] using h1
          · rintro ⟨s1, s2, hsplit, h1, h2⟩
            cases s1 with
            | nil => exact absurd h1 (by simp [likeMatch])
            | cons e t1 =>
              injection hsplit with h3 h4
              have h1' : likeMatch p t1 = true := by simpa [likeMatch] using h1
              exact ⟨t1, s2, h4, h1', h2⟩
      · cases s with
        | nil =>
          constructor
          · intro h
            exact absurd h (by simp [likeMatch, hc])
          · rintro ⟨s1, s2, hsplit, h1, h2⟩
            rcases (List.append_eq_nil.mp hsplit.symm) with ⟨rfl, -⟩
            exact absurd h1 (by simp [likeMatch, hc])
        | cons d s' =>
          have heq : likeMatch ((c :: p) ++ q) (d :: s')
              = ((lowerChar c == lowerChar d) && likeMatch (p ++ q) s') := by
            simp [likeMatch, hc, hd]
          rw [heq]
          constructor
          · intro h
            rw [Bool.and_eq_true] at h
            obtain ⟨heqc, hrest⟩ := h
            rcases (ih q s').mp hrest with ⟨t1, t2, rfl, h1, h2⟩
            refine ⟨d :: t1, t2, rfl, ?_, h2⟩
            have : likeMatch (c :: p) (d :: t1)
                = ((lowerChar c == lowerChar d) && likeMatch p t1) := by
              simp [likeMatch, hc, hd]
            rw [this, heqc, h1]
            rfl
          · rintro ⟨s1, s2, hsplit, h1, h2⟩
            cases s1 with
            | nil => exact absurd h1 (by simp [likeMatch, hc])
            | cons e t1 =>
              injection hsplit with h3 h4
              subst h3
              have h1' : ((lowerChar c == lowerChar d) && likeMatch p t1) = true := by
                have heqm : likeMatch (c :: p) (d :: t1)
                    = ((lowerChar c == lowerChar d) && likeMatch p t1) := by
                  simp [likeMatch, hc, hd]
                rw [← heqm]
                exact h1
              rw [Bool.and_eq_true] at h1'
              obtain ⟨heqc, hp1⟩ := h1'
              rw [heqc]
              simp only [Bool.true_and]
              exact (ih q s').mpr ⟨t1, s2, h4, hp1, h2⟩

/-- Deepening a pattern before its trailing `%` only shrinks its matches. -/
theorem likeMatch_mono (a t s : List Char)
    (h : likeMatch (a ++ (t ++ ['%'])) s = true) :
    likeMatch (a ++ ['%']) s = true := by
  rcases (likeMatch_append a (t ++ ['%']) s).mp h with ⟨s1, s2, rfl, h1, h2⟩
  exact (likeMatch_append a ['%'] (s1 ++ s2)).mpr
    ⟨s1, s2, rfl, h1, likeMatch_percent s2⟩

/-- A string with nonempty data is not the empty string. -/
theorem data_ne_nil_of_ne_empty (s : String) (h : s ≠ "") : s.data ≠ [] := by
  intro hn
  apply h
  cases s with
  | mk d =>
    cases hn
    rfl

/-- A deeper path has strictly more characters. -/
theorem DeeperThan_length {a b : String} (h : DeeperThan a b) :
    b.data.length < a.data.length := by
  obtain ⟨rest, hne, rfl⟩ := h
  have h1 : rest.data ≠ [] := data_ne_nil_of_ne_empty rest hne
  have h2 : 0 < rest.data.length := List.length_pos.mpr h1
  simp only [String.data_append, List.length_append,
    show ("/" : String).data = [Char.ofNat 47] from rfl,
    List.length_cons, List.length_nil]
  omega

/-- No path is deeper than itself. -/
theorem DeeperThan_irrefl (a : String) : ¬ DeeperThan a a :=
  fun h => absurd (DeeperThan_length h) (lt_irrefl _)

/-- Two paths cannot each be deeper than the other. -/
theorem DeeperThan_asymm {a b : String} (h1 : DeeperThan a b)
    (h2 : DeeperThan b a) : False := by
  have l1 := DeeperThan_length h1
  have l2 := DeeperThan_length h2
  omega

/-- Appending one more component preserves being deeper. -/
theorem DeeperThan_extend (c : String) {a b : String} (h : DeeperThan a b) :
    DeeperThan (a ++ "/" ++ c) b := by
  obtain ⟨rest, hne, rfl⟩ := h
  refine ⟨rest ++ "/" ++ c, ?_, ?_⟩
  · intro hcon
    have hdata : (rest ++ "/" ++ c).data = [] := by rw [hcon]
    simp [String.data_append,
      show ("/" : String).data = [Char.ofNat 47] from rfl] at hdata
  · apply String.ext
    simp [String.data_append, List.append_assoc]

/-- Counting rows under a `LIKE` pattern is zero exactly when no live row
of the bucket matches the pattern. -/
theorem likeCount_eq_zero_iff (db : List Row) (bucket pattern : String) :
    likeCount db bucket pattern = 0 ↔
      ∀ r ∈ db, r.bucket = bucket →
        likeMatch pattern.data r.object_key.data = false := by
  unfold likeCount
  rw [List.length_eq_zero, List.filter_eq_nil_iff]
  constructor
  · intro h r hr hb
    have hnr := h r hr
    simp only [decide_eq_true_eq] at hnr
    cases hlm : likeMatch pattern.data r.object_key.data with
    | false => rfl
    | true => exact absurd ⟨hb, hlm⟩ hnr
  · intro h r hr
    simp only [decide_eq_true_eq]
    rintro ⟨hb, hlm⟩
    rw [h r hr hb] at hlm
    cases hlm

/-- A match of the deeper directory pattern is a match of the shallower
one. -/
theorem likeMatch_string_mono (b rest s : String)
    (h : likeMatch ((b ++ "/" ++ rest) ++ "/%").data s.data = true) :
    likeMatch (b ++ "/%").data s.data = true := by
  have hd1 : ((b ++ "/" ++ rest) ++ "/%").data
      = (b.data ++ [Char.ofNat 47]) ++ ((rest.data ++ [Char.ofNat 47]) ++ [Char.ofNat 37]) := by
    simp [String.data_append, List.append_assoc,
      show ("/" : String).data = [Char.ofNat 47] from rfl,
      show ("/%" : String).data = [Char.ofNat 47, Char.ofNat 37] from rfl]
  rw [hd1] at h
  have h3 := likeMatch_mono (b.data ++ [Char.ofNat 47]) (rest.data ++ [Char.ofNat 47]) s.data h
  have hd2 : (b ++ "/%").data = (b.data ++ [Char.ofNat 47]) ++ [Char.ofNat 37] := by
    simp [String.data_append, List.append_assoc,
      show ("/%" : String).data = [Char.ofNat 47, Char.ofNat 37] from rfl]
  rw [hd2]
  exact h3

/-- If the shallower directory has no rows under it, neither does any
deeper one. -/
theorem likeCount_zero_mono (db : List Row) (bucket : String) (a b : String)
    (hd : DeeperThan a b) (hz : likeCount db bucket (b ++ "/%") = 0) :
    likeCount db bucket (a ++ "/%") = 0 := by
  obtain ⟨rest, hne, rfl⟩ := hd
  rw [likeCount_eq_zero_iff] at hz ⊢
  intro r hr hb
  cases hlm : likeMatch (((b ++ "/" ++ rest)) ++ "/%").data r.object_key.data with
  | false => rfl
  | true =>
    have := likeMatch_string_mono b rest r.object_key hlm
    rw [hz r hr hb] at this
    cases this

/-- Joining one more component appends it after a slash. -/
theorem joinComps_concat (l : List String) (x : String) (h : l ≠ []) :
    joinComps (l ++ [x]) = joinComps l ++ "/" ++ x := by
  cases l with
  | nil => exact absurd rfl h
  | cons c rest =>
    show joinComps (c :: (rest ++ [x])) = _
    simp only [joinComps, List.foldl_append, List.foldl_cons, List.foldl_nil]

/-- Taking more nonempty components yields a strictly deeper joined
path. -/
theorem joinComps_take_deeper (comps : List String)
    (hne : ∀ c ∈ comps, c ≠ "") :
    ∀ i j, i < j → (j < comps.length →
      DeeperThan (joinComps (comps.take (j + 1))) (joinComps (comps.take (i + 1)))) := by
  intro i j hij
  induction j, hij using Nat.le_induction with
  | base =>
    intro hj
    have hmem : comps[i + 1] ∈ comps := List.mem_iff_getElem.mpr ⟨i + 1, hj, rfl⟩
    have htake : comps.take (i + 1 + 1) = comps.take (i + 1) ++ [comps[i + 1]] := by
      rw [List.take_succ, List.getElem?_eq_getElem hj]
      rfl
    have hnn : comps.take (i + 1) ≠ [] := by
      refine List.length_pos.mp ?_
      rw [List.length_take]
      omega
    rw [htake, joinComps_concat _ _ hnn]
    exact ⟨comps[i + 1], hne _ hmem, rfl⟩
  | succ j hj1 ih =>
    intro hjs
    have hd := ih (by omega)
    have htake : comps.take (j + 1 + 1) = comps.take (j + 1) ++ [comps[j + 1]] := by
      rw [List.take_succ, List.getElem?_eq_getElem hjs]
      rfl
    have hnn : comps.take (j + 1) ≠ [] := by
      refine List.length_pos.mp ?_
      rw [List.length_take]
      omega
    rw [htake, joinComps_concat _ _ hnn]
    exact DeeperThan_extend _ hd

/-- The deepest-first ancestor list built from nonempty components is
pairwise ordered by depth. -/
theorem ancestorsOf_pairwise (comps : List String)
    (hcne : ∀ c ∈ comps, c ≠ "") :
    ((List.range comps.length).reverse.map
      (fun i => joinComps (comps.take (i + 1)))).Pairwise DeeperThan := by
  rw [List.pairwise_map, List.pairwise_reverse]
  refine List.Pairwise.imp_of_mem ?_ (List.pairwise_lt_range _)
  intro a b ha hb hab
  exact joinComps_take_deeper comps hcne a b hab (List.mem_range.mp hb)

/-- `ancestorStrings` is pairwise ordered deepest-first. -/
theorem ancestorStrings_pairwise (path : String) :
    (ancestorStrings path).Pairwise DeeperThan := by
  refine ancestorsOf_pairwise ((splitSegs path).filter (fun t => t ≠ "")) ?_
  intro c hc
  have := (List.mem_filter.mp hc).2
  simpa using this

/-- The loop accumulator form: `fsrdGo` returns the last element of the
zero-count prefix, seeded by the accumulator. -/
theorem fsrdGo_eq (db : List Row) (bucket : String) :
    ∀ (l : List String) (acc : Option String),
      fsrdGo db bucket l acc =
        (acc.toList ++ l.takeWhile
          (fun a => decide (likeCount db bucket (a ++ "/%") = 0))).getLast? := by
  intro l
  induction l with
  | nil =>
    intro acc
    cases acc with
    | none => rfl
    | some a => rfl
  | cons a rest ih =>
    intro acc
    by_cases h : likeCount db bucket (a ++ "/%") = 0
    · have hstep : fsrdGo db bucket (a :: rest) acc = fsrdGo db bucket rest (some a) := by
        simp [fsrdGo, h]
      have hq : (fun x => decide (likeCount db bucket (x ++ "/%") = 0)) a = true := by
        simp [h]
      rw [hstep, ih (some a), List.takeWhile_cons, if_pos hq]
      exact (List.getLast?_append_of_ne_nil _ (List.cons_ne_nil _ _)).symm
    · have hstep : fsrdGo db bucket (a :: rest) acc = acc := by
        simp [fsrdGo, h]
      have hq : ¬ ((fun x => decide (likeCount db bucket (x ++ "/%") = 0)) a = true) := by
        simp [h]
      rw [hstep, List.takeWhile_cons, if_neg hq, List.append_nil]
      cases acc with
      | none => rfl
      | some a2 => rfl

/-- Over a depth-monotone predicate, the zero prefix is empty exactly when
every element fails. -/
theorem takeWhile_nil_iff_all_false {α : Type} (Q : α → Bool) (R : α → α → Prop)
    (hmono : ∀ a b, R a b → Q b = true → Q a = true) :
    ∀ l : List α, l.Pairwise R → (l.takeWhile Q = [] ↔ ∀ a ∈ l, Q a = false) := by
  intro l
  induction l with
  | nil => simp
  | cons a rest ih =>
    intro hp
    rcases List.pairwise_cons.mp hp with ⟨hab, hrest⟩
    cases hQ : Q a with
    | false =>
      rw [List.takeWhile_cons]
      simp only [hQ]
      constructor
      · intro _
        intro b hb
        rcases List.mem_cons.mp hb with rfl | hbr
        · exact hQ
        · cases hQb : Q b with
          | false => rfl
          | true => exact absurd (hmono a b (hab b hbr) hQb) (by simp [hQ])
      · intro _
        simp
    | true =>
      constructor
      · intro hcon
        rw [List.takeWhile_cons] at hcon
        simp [hQ] at hcon
      · intro hall
        exact absurd (hall a (List.mem_cons_self a rest)) (by simp [hQ])

/-- Over a depth-monotone predicate on a pairwise list, the last element
of the zero prefix succeeds and every succeeding element is it or lies
after it in the relation. -/
theorem takeWhile_getLast_some {α : Type} (Q : α → Bool) (R : α → α → Prop)
    (hmono : ∀ a b, R a b → Q b = true → Q a = true) :
    ∀ l : List α, l.Pairwise R → ∀ A, (l.takeWhile Q).getLast? = some A →
      A ∈ l ∧ Q A = true ∧ ∀ b ∈ l, Q b = true → b = A ∨ R b A := by
  intro l
  induction l with
  | nil =>
    intro _ A h
    simp at h
  | cons a rest ih =>
    intro hp A h
    rcases List.pairwise_cons.mp hp with ⟨hab, hrest⟩
    cases hQ : Q a with
    | false =>
      rw [List.takeWhile_cons] at h
      simp [hQ] at h
    | true =>
      rw [List.takeWhile_cons, if_pos hQ] at h
      cases htw : rest.takeWhile Q with
      | nil =>
        rw [htw] at h
        simp only [List.getLast?_singleton, Option.some.injEq] at h
        subst h
        refine ⟨List.mem_cons_self _ _, hQ, ?_⟩
        intro b hb hQb
        rcases List.mem_cons.mp hb with rfl | hbr
        · exact Or.inl rfl
        · have hallf := (takeWhile_nil_iff_all_false Q R hmono rest hrest).mp htw
          exact absurd hQb (by simp [hallf b hbr])
      | cons c t2 =>
        rw [htw, List.getLast?_cons_cons, ← htw] at h
        rcases ih hrest A h with ⟨hmem, hQA, huniq⟩
        refine ⟨List.mem_cons_of_mem _ hmem, hQA, ?_⟩
        intro b hb hQb
        rcases List.mem_cons.mp hb with rfl | hbr
        · exact Or.inr (hab A hmem)
        · exact huniq b hbr hQb

/-- **C6 (amended).** `find_shallowest_removable_directory` walks the
ancestors of the deleted key deepest-first counting live rows of the
bucket under each with a SQLite `LIKE '{ancestor}/%'` query (`%` and `_`
wildcards, ASCII case-insensitive), and returns the shallowest ancestor of
the maximal zero-count chain: it returns `none` exactly when every
ancestor still has a matching row, and any returned `A` is an ancestor
with a zero count whose every strictly shallower ancestor has a nonzero
count and below which every other zero-count ancestor lies; concretely,
after PUT then DELETE of the only object `b/a/x/y/z` with trimming on, the
background task removes `/buckets/b/a`, not a deeper directory. -/
theorem shallowest_removable (db : List Row) (bucket path : String) :
    ((find_shallowest_removable_directory db bucket path = none ↔
      ∀ a ∈ ancestorStrings path, likeCount db bucket (a ++ "/%") ≠ 0) ∧
    (∀ A, find_shallowest_removable_directory db bucket path = some A →
      A ∈ ancestorStrings path ∧ likeCount db bucket (A ++ "/%") = 0 ∧
      (∀ b ∈ ancestorStrings path, DeeperThan A b →
        likeCount db bucket (b ++ "/%") ≠ 0) ∧
      (∀ b ∈ ancestorStrings path, likeCount db bucket (b ++ "/%") = 0 →
        b = A ∨ DeeperThan b A))) ∧
    (delete_object cfgFix (put_object cfgFix S0 "b" "a/x/y/z" none none [9] 0).1
        "b" "a/x/y/z" none).1.casCalls =
      [.add "/buckets/b/a/x/y/z" [9], .unlink "/buckets/b/a/x/y/z",
       .unpin (cidOf [9]), .unlink "/buckets/b/a"] := by
  have hmono : ∀ a b : String, DeeperThan a b →
      (fun x => decide (likeCount db bucket (x ++ "/%") = 0)) b = true →
      (fun x => decide (likeCount db bucket (x ++ "/%") = 0)) a = true := by
    intro a b hd hb
    simp only [decide_eq_true_eq] at hb ⊢
    exact likeCount_zero_mono db bucket a b hd hb
  have hpair := ancestorStrings_pairwise path
  have hfs : find_shallowest_removable_directory db bucket path =
      ((ancestorStrings path).takeWhile
        (fun a => decide (likeCount db bucket (a ++ "/%") = 0))).getLast? := by
    unfold find_shallowest_removable_directory
    rw [fsrdGo_eq]
    simp
  refine ⟨⟨?_, ?_⟩, ?_⟩
  · rw [hfs, List.getLast?_eq_none_iff,
      takeWhile_nil_iff_all_false _ DeeperThan hmono _ hpair]
    constructor
    · intro hall a ha
      exact of_decide_eq_false (hall a ha)
    · intro hall a ha
      exact decide_eq_false (hall a ha)
  · intro A hA
    rw [hfs] at hA
    rcases takeWhile_getLast_some _ DeeperThan hmono _ hpair A hA with ⟨hm, hq, hu⟩
    refine ⟨hm, of_decide_eq_true hq, ?_, ?_⟩
    · intro b hb hAb hz
      rcases hu b hb (decide_eq_true hz) with heq | hbA
      · exact DeeperThan_irrefl A (heq ▸ hAb)
      · exact DeeperThan_asymm hbA hAb
    · intro b hb hz
      exact hu b hb (decide_eq_true hz)
  · decide

/-- **C6 counterexample.** SQLite `LIKE` is not literal-prefix matching:
after deleting `a_b/x`, the live row `acb/y` matches `LIKE a_b/%` (the `_`
wildcard covers the `c`), so the code keeps `a_b/x` while the spec's
literal-prefix rule returns the shallower `a_b`. -/
theorem shallowest_removable_counterexample :
    find_shallowest_removable_directory dbUnderscore "b" "a_b/x"
        ≠ specShallowestEmptyAncestor dbUnderscore "b" "a_b/x" ∧
    find_shallowest_removable_directory dbUnderscore "b" "a_b/x" = some "a_b/x" ∧
    specShallowestEmptyAncestor dbUnderscore "b" "a_b/x" = some "a_b" := by
  refine ⟨?_, ?_, ?_⟩ <;> decide

/-- Witness for **C6 (amended)**: the returned ancestor of `a_b/x` over
the one-row store is `a_b/x` itself, with the characterizing properties
instantiated. -/
theorem shallowest_removable_witness :
    "a_b/x" ∈ ancestorStrings "a_b/x" ∧
    likeCount dbUnderscore "b" ("a_b/x" ++ "/%") = 0 ∧
    (∀ b ∈ ancestorStrings "a_b/x", DeeperThan "a_b/x" b →
      likeCount dbUnderscore "b" (b ++ "/%") ≠ 0) ∧
    (∀ b ∈ ancestorStrings "a_b/x", likeCount dbUnderscore "b" (b ++ "/%") = 0 →
      b = "a_b/x" ∨ DeeperThan b "a_b/x") :=
  (shallowest_removable dbUnderscore "b" "a_b/x").1.2 "a_b/x" (by decide)

/-! ## C1: pin accounting (corrected) -/

/-- A CID is referenced exactly when some index row carries it. -/
theorem referenced_iff (s : S) (C : String) :
    referenced s C = true ↔ ∃ r ∈ s.index, r.cid = C := by
  unfold referenced
  rw [List.any_eq_true]
  simp

/-- A CID's reference count is zero exactly when no index row carries it. -/
theorem cid_count_zero_iff (idx : List Row) (C : String) :
    cid_count idx C = 0 ↔ ∀ r ∈ idx, r.cid ≠ C := by
  unfold cid_count
  rw [List.length_eq_zero, List.filter_eq_nil_iff]
  simp

/-- An absent row means no row matches the key. -/
theorem get_none_iff (idx : List Row) (b k : String) :
    get_object_metadata idx b k = none ↔
      ∀ r ∈ idx, ¬ (r.bucket = b ∧ r.object_key = k) := by
  unfold get_object_metadata
  rw [List.find?_eq_none]
  simp

/-- A found row is a member matching the key. -/
theorem get_some_spec (idx : List Row) (b k : String) (o : Row)
    (h : get_object_metadata idx b k = some o) :
    o ∈ idx ∧ o.bucket = b ∧ o.object_key = k := by
  unfold get_object_metadata at h
  refine ⟨List.mem_of_find?_eq_some h, ?_⟩
  have := List.find?_some h
  simp at this
  exact this

/-- Under key uniqueness, the lookup of a member row by its own key finds
exactly that row. -/
theorem get_eq_of_mem_unique (idx : List Row) (hu : keyUnique idx) (r : Row)
    (hr : r ∈ idx) :
    get_object_metadata idx r.bucket r.object_key = some r := by
  induction idx with
  | nil => cases hr
  | cons a rest ih =>
    rcases List.pairwise_cons.mp hu with ⟨hab, hrest⟩
    unfold get_object_metadata
    rcases List.mem_cons.mp hr with rfl | hmem
    · rw [List.find?_cons,
        show decide (r.bucket = r.bucket ∧ r.object_key = r.object_key) = true from by simp]
    · have hd : decide (a.bucket = r.bucket ∧ a.object_key = r.object_key) = false :=
        decide_eq_false (fun hc => hab r hmem hc)
      rw [List.find?_cons, hd]
      exact ih hrest hmem

/-- Membership in the upserted index. -/
theorem mem_store_iff (idx : List Row) (b k cid : String) (sz : Int)
    (ct : String) (t : Nat) (r : Row) :
    r ∈ store_object_metadata idx b k cid sz ct t ↔
      (r ∈ idx ∧ ¬ (r.bucket = b ∧ r.object_key = k)) ∨
        r = { bucket := b, object_key := k, cid := cid, size := sz,
              content_type := ct, updated_at := t } := by
  unfold store_object_metadata
  simp [List.mem_filter]
  tauto

/-- Membership in the index after a row deletion. -/
theorem mem_delete_iff (idx : List Row) (md : Row) (r : Row) :
    r ∈ db_delete_object idx md ↔
      r ∈ idx ∧ ¬ (r.bucket = md.bucket ∧ r.object_key = md.object_key) := by
  unfold db_delete_object
  simp [List.mem_filter]
  tauto

/-- Upserting preserves key uniqueness. -/
theorem keyUnique_store (idx : List Row) (b k cid : String) (sz : Int)
    (ct : String) (t : Nat) (hu : keyUnique idx) :
    keyUnique (store_object_metadata idx b k cid sz ct t) := by
  unfold store_object_metadata keyUnique
  rw [List.pairwise_append]
  refine ⟨hu.sublist (List.filter_sublist _), List.pairwise_singleton _ _, ?_⟩
  intro r1 hr1 r2 hr2
  rcases List.mem_filter.mp hr1 with ⟨_, hp⟩
  rcases List.mem_singleton.mp hr2 with rfl
  simp only [decide_eq_true_eq] at hp
  simpa using hp

/-- Deleting preserves key uniqueness. -/
theorem keyUnique_delete (idx : List Row) (md : Row) (hu : keyUnique idx) :
    keyUnique (db_delete_object idx md) :=
  hu.sublist (List.filter_sublist _)

/-- `cas_unlink` leaves the unpin log unchanged. -/
theorem unpins_cas_unlink (s : S) (p : String) :
    unpins (cas_unlink s p) = unpins s := by
  unfold unpins cas_unlink
  simp [List.filterMap_append]

/-- `cas_unlink` leaves the index unchanged. -/
theorem index_cas_unlink (s : S) (p : String) : (cas_unlink s p).index = s.index :=
  rfl

/-- Running one more operation is stepping from the prefix's state. -/
theorem runOps_snoc (cfg : Config) (l : List Op) (op : Op) :
    runOps cfg (l ++ [op]) = step cfg (runOps cfg l) op := by
  unfold runOps
  rw [List.foldl_append]
  rfl

/-- `noReAdd` decomposes over list concatenation. -/
theorem noReAdd_append (cfg : Config) :
    ∀ (l1 l2 : List Op) (s : S),
      noReAdd cfg s (l1 ++ l2)
        = (noReAdd cfg s l1 && noReAdd cfg (l1.foldl (step cfg) s) l2) := by
  intro l1
  induction l1 with
  | nil =>
    intro l2 s
    simp [noReAdd]
  | cons op rest ih =>
    intro l2 s
    cases op with
    | put b k ct body t =>
      show noReAdd cfg s (.put b k ct body t :: (rest ++ l2)) = _
      simp only [noReAdd, List.foldl_cons]
      rw [ih l2 (step cfg s (Op.put b k ct body t)), Bool.and_assoc]
    | del b k =>
      show noReAdd cfg s (.del b k :: (rest ++ l2)) = _
      simp only [noReAdd, List.foldl_cons]
      rw [ih l2 (step cfg s (Op.del b k)), Bool.and_assoc]

/-- A CID referenced in the final state was referenced during the run. -/
theorem ever_of_ref (cfg : Config) (ops : List Op) (C : String)
    (h : referenced (runOps cfg ops) C = true) :
    everReferenced cfg ops C = true := by
  unfold everReferenced
  rw [List.any_eq_true]
  refine ⟨ops.length, List.mem_range.mpr (by omega), ?_⟩
  rw [List.take_length]
  simpa using h

/-- The run-long reference predicate over one more operation. -/
theorem everReferenced_snoc_iff (cfg : Config) (ops : List Op) (op : Op)
    (C : String) :
    everReferenced cfg (ops ++ [op]) C = true ↔
      (everReferenced cfg ops C = true ∨
        referenced (runOps cfg (ops ++ [op])) C = true) := by
  have hfull : (ops ++ [op]).take (ops.length + 1) = ops ++ [op] := by
    rw [show ops.length + 1 = (ops ++ [op]).length from by simp]
    exact List.take_length _
  unfold everReferenced
  rw [List.any_eq_true, List.any_eq_true]
  constructor
  · rintro ⟨i, hi, hr⟩
    rw [List.mem_range] at hi
    simp only [List.length_append, List.length_singleton] at hi
    by_cases hle : i ≤ ops.length
    · left
      refine ⟨i, List.mem_range.mpr (by omega), ?_⟩
      rwa [List.take_append_of_le_length hle] at hr
    · right
      have hieq : i = ops.length + 1 := by omega
      subst hieq
      rwa [hfull] at hr
  · rintro (⟨i, hi, hr⟩ | hr)
    · rw [List.mem_range] at hi
      refine ⟨i, List.mem_range.mpr (by simp; omega), ?_⟩
      rw [List.take_append_of_le_length (by omega)]
      exact hr
    · refine ⟨ops.length + 1, List.mem_range.mpr (by simp), ?_⟩
      rw [hfull]
      exact hr

/-- A PutObject whose key fails normalization leaves the state alone. -/
theorem put_step_err (cfg : Config) (s : S) (b k : String) (ct : Option String)
    (body : List Nat) (t : Nat) (e : CheckedPathError)
    (hnorm : normalized_path cfg.folder_prefix b k = .error e) :
    (put_object cfg s b k ct none body t).1 = s := by
  unfold put_object
  rw [hnorm]

/-- The full effect of a successful PutObject on the index and the unpin
log: the index is upserted, and the old row's CID is unpinned exactly when
a row existed, its CID changed, and the new index no longer references
it. -/
theorem put_step_ok (cfg : Config) (s : S) (b k : String) (ct : Option String)
    (body : List Nat) (t : Nat) (path : String)
    (hnorm : normalized_path cfg.folder_prefix b k = .ok path) :
    ((put_object cfg s b k ct none body t).1.index
        = store_object_metadata s.index b k (cidOf body) body.length
            (resolve_content_type cfg k ct) t) ∧
    ((get_object_metadata s.index b k = none ∧
        unpins (put_object cfg s b k ct none body t).1 = unpins s) ∨
     (∃ o, get_object_metadata s.index b k = some o ∧ o.cid = cidOf body ∧
        unpins (put_object cfg s b k ct none body t).1 = unpins s) ∨
     (∃ o, get_object_metadata s.index b k = some o ∧ o.cid ≠ cidOf body ∧
        cid_count (store_object_metadata s.index b k (cidOf body) body.length
          (resolve_content_type cfg k ct) t) o.cid ≠ 0 ∧
        unpins (put_object cfg s b k ct none body t).1 = unpins s) ∨
     (∃ o, get_object_metadata s.index b k = some o ∧ o.cid ≠ cidOf body ∧
        cid_count (store_object_metadata s.index b k (cidOf body) body.length
          (resolve_content_type cfg k ct) t) o.cid = 0 ∧
        unpins (put_object cfg s b k ct none body t).1
          = unpins s ++ [o.cid])) := by
  refine ⟨put_object_index cfg s b k ct body t path hnorm, ?_⟩
  unfold put_object
  rw [hnorm]
  simp only [add_content]
  cases hold : get_object_metadata s.index b k with
  | none =>
    left
    refine ⟨rfl, ?_⟩
    simp [unpins, List.filterMap_append]
  | some o =>
    simp only []
    by_cases hc : o.cid ≠ cidOf body
    · by_cases hcc : cid_count (store_object_metadata s.index b k (cidOf body)
          body.length (resolve_content_type cfg k ct) t) o.cid = 0
      · right; right; right
        refine ⟨o, rfl, hc, hcc, ?_⟩
        rw [if_pos hc]
        simp [unpins, unpin_if_orphan, List.filterMap_append, hcc]
      · right; right; left
        refine ⟨o, rfl, hc, hcc, ?_⟩
        rw [if_pos hc]
        simp [unpins, unpin_if_orphan, List.filterMap_append, hcc]
    · right; left
      refine ⟨o, rfl, of_not_not hc, ?_⟩
      rw [if_neg hc]
      simp [unpins, List.filterMap_append]

/-- A DeleteObject of an absent key leaves the state alone. -/
theorem del_step_none (cfg : Config) (s : S) (b k : String)
    (hget : get_object_metadata s.index b k = none) :
    (delete_object cfg s b k none).1 = s := by
  unfold delete_object
  rw [hget]

/-- A DeleteObject whose stored key fails normalization leaves the state
alone. -/
theorem del_step_err (cfg : Config) (s : S) (b k : String) (md : Row)
    (e : CheckedPathError)
    (hget : get_object_metadata s.index b k = some md)
    (hnorm : normalized_path cfg.folder_prefix md.bucket md.object_key = .error e) :
    (delete_object cfg s b k none).1 = s := by
  unfold delete_object
  rw [hget]
  simp only []
  rw [hnorm]

/-- The full effect of a successful DeleteObject on the index and the
unpin log: the row is removed, and its CID is unpinned exactly when the
remaining index no longer references it. -/
theorem del_step_ok (cfg : Config) (s : S) (b k : String) (md : Row)
    (path : String)
    (hget : get_object_metadata s.index b k = some md)
    (hnorm : normalized_path cfg.folder_prefix md.bucket md.object_key = .ok path) :
    (delete_object cfg s b k none).1.index = db_delete_object s.index md ∧
    ((cid_count (db_delete_object s.index md) md.cid = 0 ∧
        unpins (delete_object cfg s b k none).1 = unpins s ++ [md.cid]) ∨
     (cid_count (db_delete_object s.index md) md.cid ≠ 0 ∧
        unpins (delete_object cfg s b k none).1 = unpins s)) := by
  constructor
  · unfold delete_object
    rw [hget]
    simp only []
    rw [hnorm]
    simp only []
    split
    · split
      · split
        · rw [index_cas_unlink, unpin_if_orphan_index]
          rfl
        · rw [unpin_if_orphan_index]
          rfl
      · rw [unpin_if_orphan_index]
        rfl
    · rw [unpin_if_orphan_index]
      rfl
  · by_cases hcc : cid_count (db_delete_object s.index md) md.cid = 0
    · left
      refine ⟨hcc, ?_⟩
      unfold delete_object
      rw [hget]
      simp only []
      rw [hnorm]
      simp only []
      split
      · split
        · split
          · simp [unpins, unpin_if_orphan, cas_unlink, hcc, List.filterMap_append]
          · simp [unpins, unpin_if_orphan, cas_unlink, hcc, List.filterMap_append]
        · simp [unpins, unpin_if_orphan, cas_unlink, hcc, List.filterMap_append]
      · simp [unpins, unpin_if_orphan, cas_unlink, hcc, List.filterMap_append]
    · right
      refine ⟨hcc, ?_⟩
      unfold delete_object
      rw [hget]
      simp only []
      rw [hnorm]
      simp only []
      split
      · split
        · split
          · simp [unpins, unpin_if_orphan, cas_unlink, hcc, List.filterMap_append]
          · simp [unpins, unpin_if_orphan, cas_unlink, hcc, List.filterMap_append]
        · simp [unpins, unpin_if_orphan, cas_unlink, hcc, List.filterMap_append]
      · simp [unpins, unpin_if_orphan, cas_unlink, hcc, List.filterMap_append]

/-- One handler step preserves key uniqueness of the index. -/
theorem step_keyUnique (cfg : Config) (s : S) (op : Op) (h : keyUnique s.index) :
    keyUnique (step cfg s op).index := by
  cases op with
  | put b k ct body t =>
    show keyUnique (put_object cfg s b k ct none body t).1.index
    cases hnorm : normalized_path cfg.folder_prefix b k with
    | error e =>
      rw [put_step_err cfg s b k ct body t e hnorm]
      exact h
    | ok path =>
      rw [put_object_index cfg s b k ct body t path hnorm]
      exact keyUnique_store _ _ _ _ _ _ _ h
  | del b k =>
    show keyUnique (delete_object cfg s b k none).1.index
    cases hget : get_object_metadata s.index b k with
    | none =>
      rw [del_step_none cfg s b k hget]
      exact h
    | some md =>
      cases hnorm : normalized_path cfg.folder_prefix md.bucket md.object_key with
      | error e =>
        rw [del_step_err cfg s b k md e hget hnorm]
        exact h
      | ok path =>
        rw [(del_step_ok cfg s b k md path hget hnorm).1]
        exact keyUnique_delete _ _ h

/-- Folding handler steps preserves key uniqueness. -/
theorem foldl_keyUnique (cfg : Config) :
    ∀ (l : List Op) (s : S), keyUnique s.index →
      keyUnique (l.foldl (step cfg) s).index := by
  intro l
  induction l with
  | nil =>
    intro s h
    exact h
  | cons op rest ih =>
    intro s h
    exact ih (step cfg s op) (step_keyUnique cfg s op h)

/-- Every reachable index is key unique. -/
theorem runOps_keyUnique (cfg : Config) (ops : List Op) :
    keyUnique (runOps cfg ops).index :=
  foldl_keyUnique cfg ops S0 List.Pairwise.nil

/-- A CID is unreferenced exactly when no index row carries it. -/
theorem ref_false_iff (s : S) (C : String) :
    referenced s C = false ↔ ∀ r ∈ s.index, r.cid ≠ C := by
  constructor
  · intro h r hr hc
    have ht : referenced s C = true := (referenced_iff s C).mpr ⟨r, hr, hc⟩
    rw [h] at ht
    cases ht
  · intro h
    cases hb : referenced s C with
    | false => rfl
    | true =>
      rcases (referenced_iff s C).mp hb with ⟨r, hr, hc⟩
      exact absurd hc (h r hr)

/-- The effect of one handler step on the unpin log: a CID is newly
unpinned exactly when it was referenced before and is unreferenced after;
unpinned CIDs stay unreferenced; and (given that `put` never re-stores an
already-unpinned CID) the log stays duplicate free. -/
theorem step_effects (cfg : Config) (s : S) (op : Op)
    (hku : keyUnique s.index)
    (hinv : ∀ C, C ∈ unpins s → referenced s C = false)
    (hguard : ∀ b k ct body t, op = Op.put b k ct body t →
      cidOf body ∉ unpins s) :
    (∀ C, C ∈ unpins (step cfg s op) ↔
      (C ∈ unpins s ∨
        (referenced s C = true ∧ referenced (step cfg s op) C = false))) ∧
    (∀ C, C ∈ unpins (step cfg s op) → referenced (step cfg s op) C = false) ∧
    ((unpins s).Nodup → (unpins (step cfg s op)).Nodup) := by
  cases op with
  | put b k ct body t =>
    have hnoadd := hguard b k ct body t rfl
    rw [show step cfg s (Op.put b k ct body t)
        = (put_object cfg s b k ct none body t).1 from rfl]
    cases hnorm : normalized_path cfg.folder_prefix b k with
    | error e =>
      rw [put_step_err cfg s b k ct body t e hnorm]
      refine ⟨?_, hinv, fun hN => hN⟩
      intro C
      constructor
      · exact Or.inl
      · rintro (h | ⟨h1, h2⟩)
        · exact h
        · rw [h1] at h2
          cases h2
    | ok path =>
      obtain ⟨hidx, hcase⟩ := put_step_ok cfg s b k ct body t path hnorm
      have hmem_iff := mem_store_iff s.index b k (cidOf body) body.length
        (resolve_content_type cfg k ct) t
      have hrefT : ∀ C, referenced (put_object cfg s b k ct none body t).1 C = true ↔
          ∃ r ∈ store_object_metadata s.index b k (cidOf body) body.length
            (resolve_content_type cfg k ct) t, r.cid = C := by
        intro C
        rw [referenced_iff, hidx]
      have hrefF : ∀ C, referenced (put_object cfg s b k ct none body t).1 C = false ↔
          ∀ r ∈ store_object_metadata s.index b k (cidOf body) body.length
            (resolve_content_type cfg k ct) t, r.cid ≠ C := by
        intro C
        rw [ref_false_iff, hidx]
      have hF1 : ∀ C, C ∈ unpins s →
          referenced (put_object cfg s b k ct none body t).1 C = false := by
        intro C hCu
        rw [hrefF C]
        intro r hrU hrc
        rcases (hmem_iff r).mp hrU with ⟨hrin, _⟩ | hrnew
        · exact (ref_false_iff s C).mp (hinv C hCu) r hrin hrc
        · apply hnoadd
          have hcb : cidOf body = C := by
            rw [hrnew] at hrc
            exact hrc
          rw [hcb]
          exact hCu
      have huniq : ∀ r, r ∈ s.index → r.bucket = b → r.object_key = k →
          get_object_metadata s.index b k = some r := by
        intro r hr hb2 hk2
        have h := get_eq_of_mem_unique s.index hku r hr
        rw [hb2, hk2] at h
        exact h
      have hsurv : ∀ C r, r ∈ s.index → ¬ (r.bucket = b ∧ r.object_key = k) →
          r.cid = C →
          referenced (put_object cfg s b k ct none body t).1 C = true := by
        intro C r hr hnb hc
        exact (hrefT C).mpr ⟨r, (hmem_iff r).mpr (Or.inl ⟨hr, hnb⟩), hc⟩
      rcases hcase with ⟨hold, hunp⟩ | ⟨o, hold, hoc, hunp⟩ |
        ⟨o, hold, hne, hcc, hunp⟩ | ⟨o, hold, hne, hcc, hunp⟩
      · refine ⟨?_, ?_, ?_⟩
        · intro C
          rw [hunp]
          constructor
          · exact Or.inl
          · rintro (h | ⟨h1, h2⟩)
            · exact h
            · exfalso
              rcases (referenced_iff s C).mp h1 with ⟨r, hr, hc⟩
              have hnb : ¬ (r.bucket = b ∧ r.object_key = k) :=
                (get_none_iff _ _ _).mp hold r hr
              have ht := hsurv C r hr hnb hc
              rw [ht] at h2
              cases h2
        · intro C hC
          rw [hunp] at hC
          exact hF1 C hC
        · intro hN
          rw [hunp]
          exact hN
      · refine ⟨?_, ?_, ?_⟩
        · intro C
          rw [hunp]
          constructor
          · exact Or.inl
          · rintro (h | ⟨h1, h2⟩)
            · exact h
            · exfalso
              rcases (referenced_iff s C).mp h1 with ⟨r, hr, hc⟩
              by_cases hnb : r.bucket = b ∧ r.object_key = k
              · have hg := huniq r hr hnb.1 hnb.2
                rw [hold] at hg
                have hro : r = o := (Option.some.inj hg).symm
                have hC2 : C = cidOf body := by rw [← hc, hro, hoc]
                have ht : referenced (put_object cfg s b k ct none body t).1 C = true := by
                  rw [hC2]
                  exact (hrefT (cidOf body)).mpr ⟨_, (hmem_iff _).mpr (Or.inr rfl), rfl⟩
                rw [ht] at h2
                cases h2
              · have ht := hsurv C r hr hnb hc
                rw [ht] at h2
                cases h2
        · intro C hC
          rw [hunp] at hC
          exact hF1 C hC
        · intro hN
          rw [hunp]
          exact hN
      · refine ⟨?_, ?_, ?_⟩
        · intro C
          rw [hunp]
          constructor
          · exact Or.inl
          · rintro (h | ⟨h1, h2⟩)
            · exact h
            · exfalso
              rcases (referenced_iff s C).mp h1 with ⟨r, hr, hc⟩
              by_cases hnb : r.bucket = b ∧ r.object_key = k
              · have hg := huniq r hr hnb.1 hnb.2
                rw [hold] at hg
                have hro : r = o := (Option.some.inj hg).symm
                have hC2 : C = o.cid := by rw [← hc, hro]
                have hex : ¬ ∀ r2 ∈ store_object_metadata s.index b k (cidOf body)
                    body.length (resolve_content_type cfg k ct) t, r2.cid ≠ o.cid :=
                  fun hall => hcc ((cid_count_zero_iff _ _).mpr hall)
                push_neg at hex
                rcases hex with ⟨r2, hr2, hc2⟩
                have ht := (hrefT C).mpr ⟨r2, hr2, by rw [hc2, hC2]⟩
                rw [ht] at h2
                cases h2
              · have ht := hsurv C r hr hnb hc
                rw [ht] at h2
                cases h2
        · intro C hC
          rw [hunp] at hC
          exact hF1 C hC
        · intro hN
          rw [hunp]
          exact hN
      · obtain ⟨homem, hob, hok2⟩ := get_some_spec s.index b k o hold
        have horef : referenced s o.cid = true :=
          (referenced_iff s o.cid).mpr ⟨o, homem, rfl⟩
        have honot : o.cid ∉ unpins s := by
          intro hmem
          have hf := hinv o.cid hmem
          rw [hf] at horef
          cases horef
        have hosF : referenced (put_object cfg s b k ct none body t).1 o.cid = false :=
          (hrefF o.cid).mpr ((cid_count_zero_iff _ _).mp hcc)
        refine ⟨?_, ?_, ?_⟩
        · intro C
          rw [hunp]
          constructor
          · intro h
            rcases List.mem_append.mp h with h | h
            · exact Or.inl h
            · rw [List.mem_singleton] at h
              subst h
              exact Or.inr ⟨horef, hosF⟩
          · rintro (h | ⟨h1, h2⟩)
            · exact List.mem_append_left _ h
            · rcases (referenced_iff s C).mp h1 with ⟨r, hr, hc⟩
              by_cases hnb : r.bucket = b ∧ r.object_key = k
              · have hg := huniq r hr hnb.1 hnb.2
                rw [hold] at hg
                have hro : r = o := (Option.some.inj hg).symm
                have hC2 : C = o.cid := by rw [← hc, hro]
                rw [hC2]
                exact List.mem_append_right _ (List.mem_singleton.mpr rfl)
              · exfalso
                have ht := hsurv C r hr hnb hc
                rw [ht] at h2
                cases h2
        · intro C hC
          rw [hunp] at hC
          rcases List.mem_append.mp hC with h | h
          · exact hF1 C h
          · rw [List.mem_singleton] at h
            subst h
            exact hosF
        · intro hN
          rw [hunp, List.nodup_append]
          refine ⟨hN, List.nodup_singleton _, ?_⟩
          intro a ha hb2
          rw [List.mem_singleton] at hb2
          subst hb2
          exact honot ha
  | del b k =>
    rw [show step cfg s (Op.del b k) = (delete_object cfg s b k none).1 from rfl]
    cases hget : get_object_metadata s.index b k with
    | none =>
      rw [del_step_none cfg s b k hget]
      refine ⟨?_, hinv, fun hN => hN⟩
      intro C
      constructor
      · exact Or.inl
      · rintro (h | ⟨h1, h2⟩)
        · exact h
        · rw [h1] at h2
          cases h2
    | some md =>
      cases hnorm : normalized_path cfg.folder_prefix md.bucket md.object_key with
      | error e =>
        rw [del_step_err cfg s b k md e hget hnorm]
        refine ⟨?_, hinv, fun hN => hN⟩
        intro C
        constructor
        · exact Or.inl
        · rintro (h | ⟨h1, h2⟩)
          · exact h
          · rw [h1] at h2
            cases h2
      | ok path =>
        obtain ⟨hidx, hcase⟩ := del_step_ok cfg s b k md path hget hnorm
        have hmem_iff := mem_delete_iff s.index md
        obtain ⟨hmmem, hmb, hmk⟩ := get_some_spec s.index b k md hget
        have hrefT : ∀ C, referenced (delete_object cfg s b k none).1 C = true ↔
            ∃ r ∈ db_delete_object s.index md, r.cid = C := by
          intro C
          rw [referenced_iff, hidx]
        have hrefF : ∀ C, referenced (delete_object cfg s b k none).1 C = false ↔
            ∀ r ∈ db_delete_object s.index md, r.cid ≠ C := by
          intro C
          rw [ref_false_iff, hidx]
        have hF1 : ∀ C, C ∈ unpins s →
            referenced (delete_object cfg s b k none).1 C = false := by
          intro C hCu
          rw [hrefF C]
          intro r hrD hrc
          exact (ref_false_iff s C).mp (hinv C hCu) r ((hmem_iff r).mp hrD).1 hrc
        have hsurv : ∀ C r, r ∈ s.index →
            ¬ (r.bucket = md.bucket ∧ r.object_key = md.object_key) → r.cid = C →
            referenced (delete_object cfg s b k none).1 C = true := by
          intro C r hr hnb hc
          exact (hrefT C).mpr ⟨r, (hmem_iff r).mpr ⟨hr, hnb⟩, hc⟩
        have hgm : get_object_metadata s.index md.bucket md.object_key = some md := by
          rw [hmb, hmk]
          exact hget
        have huniq : ∀ r, r ∈ s.index → r.bucket = md.bucket →
            r.object_key = md.object_key → r = md := by
          intro r hr hb2 hk2
          have h := get_eq_of_mem_unique s.index hku r hr
          rw [hb2, hk2, hgm] at h
          exact (Option.some.inj h).symm
        have hmref : referenced s md.cid = true :=
          (referenced_iff s md.cid).mpr ⟨md, hmmem, rfl⟩
        have hmnot : md.cid ∉ unpins s := by
          intro hmem
          have hf := hinv md.cid hmem
          rw [hf] at hmref
          cases hmref
        rcases hcase with ⟨hcc, hunp⟩ | ⟨hcc, hunp⟩
        · have hmsF : referenced (delete_object cfg s b k none).1 md.cid = false :=
            (hrefF md.cid).mpr ((cid_count_zero_iff _ _).mp hcc)
          refine ⟨?_, ?_, ?_⟩
          · intro C
            rw [hunp]
            constructor
            · intro h
              rcases List.mem_append.mp h with h | h
              · exact Or.inl h
              · rw [List.mem_singleton] at h
                subst h
                exact Or.inr ⟨hmref, hmsF⟩
            · rintro (h | ⟨h1, h2⟩)
              · exact List.mem_append_left _ h
              · rcases (referenced_iff s C).mp h1 with ⟨r, hr, hc⟩
                by_cases hnb : r.bucket = md.bucket ∧ r.object_key = md.object_key
                · have hro : r = md := huniq r hr hnb.1 hnb.2
                  have hC2 : C = md.cid := by rw [← hc, hro]
                  rw [hC2]
                  exact List.mem_append_right _ (List.mem_singleton.mpr rfl)
                · exfalso
                  have ht := hsurv C r hr hnb hc
                  rw [ht] at h2
                  cases h2
          · intro C hC
            rw [hunp] at hC
            rcases List.mem_append.mp hC with h | h
            · exact hF1 C h
            · rw [List.mem_singleton] at h
              subst h
              exact hmsF
          · intro hN
            rw [hunp, List.nodup_append]
            refine ⟨hN, List.nodup_singleton _, ?_⟩
            intro a ha hb2
            rw [List.mem_singleton] at hb2
            subst hb2
            exact hmnot ha
        · refine ⟨?_, ?_, ?_⟩
          · intro C
            rw [hunp]
            constructor
            · exact Or.inl
            · rintro (h | ⟨h1, h2⟩)
              · exact h
              · exfalso
                rcases (referenced_iff s C).mp h1 with ⟨r, hr, hc⟩
                by_cases hnb : r.bucket = md.bucket ∧ r.object_key = md.object_key
                · have hro : r = md := huniq r hr hnb.1 hnb.2
                  have hC2 : C = md.cid := by rw [← hc, hro]
                  have hex : ¬ ∀ r2 ∈ db_delete_object s.index md, r2.cid ≠ md.cid :=
                    fun hall => hcc ((cid_count_zero_iff _ _).mpr hall)
                  push_neg at hex
                  rcases hex with ⟨r2, hr2, hc2⟩
                  have ht := (hrefT C).mpr ⟨r2, hr2, by rw [hc2, hC2]⟩
                  rw [ht] at h2
                  cases h2
                · have ht := hsurv C r hr hnb hc
                  rw [ht] at h2
                  cases h2
          · intro C hC
            rw [hunp] at hC
            exact hF1 C hC
          · intro hN
            rw [hunp]
            exact hN

/-- **C1 (amended).** For every sequence of PutObject and DeleteObject
operations in which no PutObject stores content whose CID has already been
unpinned at that point of the run, at the end of the sequence `pin_remove`
has been invoked on a CID `C` if and only if `C` was referenced by an
index row at some point and no index row referencing `C` remains; and no
CID has `pin_remove` invoked on it more than once over the whole
sequence. -/
theorem pin_accounting (cfg : Config) (ops : List Op)
    (hno : noReAdd cfg S0 ops = true) :
    (unpins (runOps cfg ops)).Nodup ∧
    ∀ C, C ∈ unpins (runOps cfg ops) ↔
      (everReferenced cfg ops C = true ∧
        referenced (runOps cfg ops) C = false) := by
  revert hno
  induction ops using List.reverseRecOn with
  | nil =>
    intro _
    refine ⟨List.nodup_nil, ?_⟩
    intro C
    constructor
    · intro h
      exact absurd h (List.not_mem_nil C)
    · rintro ⟨hev, _⟩
      have hf : everReferenced cfg [] C = false := rfl
      rw [hf] at hev
      cases hev
  | append_singleton l op ih =>
    intro hno
    rw [noReAdd_append cfg l [op] S0, Bool.and_eq_true] at hno
    obtain ⟨hno1, hno2⟩ := hno
    obtain ⟨ihN, ihM⟩ := ih hno1
    have hinv : ∀ C, C ∈ unpins (runOps cfg l) →
        referenced (runOps cfg l) C = false :=
      fun C hC => ((ihM C).mp hC).2
    have hguard : ∀ b k ct body t, op = Op.put b k ct body t →
        cidOf body ∉ unpins (runOps cfg l) := by
      intro b k ct body t hop
      subst hop
      simp [noReAdd] at hno2
      exact hno2
    obtain ⟨hstep_iff, hstep_inv, hstep_nd⟩ :=
      step_effects cfg (runOps cfg l) op (runOps_keyUnique cfg l) hinv hguard
    constructor
    · rw [runOps_snoc]
      exact hstep_nd ihN
    · intro C
      rw [runOps_snoc, everReferenced_snoc_iff, runOps_snoc, hstep_iff C]
      constructor
      · intro h
        have hC2 : C ∈ unpins (step cfg (runOps cfg l) op) := (hstep_iff C).mpr h
        refine ⟨?_, hstep_inv C hC2⟩
        rcases h with h | h
        · exact Or.inl ((ihM C).mp h).1
        · exact Or.inl (ever_of_ref cfg l C h.1)
      · rintro ⟨he, hr⟩
        rcases he with he | he
        · by_cases hCu : C ∈ unpins (runOps cfg l)
          · exact Or.inl hCu
          · right
            refine ⟨?_, hr⟩
            cases hb : referenced (runOps cfg l) C with
            | true => rfl
            | false => exact absurd ((ihM C).mpr ⟨he, hb⟩) hCu
        · rw [he] at hr
          cases hr

/-- **C1 counterexample.** Without the re-add proviso the claim fails: a
put/delete/re-put/delete sequence of identical content unpins the same CID
twice, and a put/delete/re-put-under-another-key sequence leaves a CID
that was unpinned yet is still referenced by a live row at the end. -/
theorem pin_accounting_counterexample :
    ¬ (unpins (runOps cfgFix opsTwiceUnpinned)).Nodup ∧
    (cidOf [1] ∈ unpins (runOps cfgFix opsReAdd) ∧
      referenced (runOps cfgFix opsReAdd) (cidOf [1]) = true) := by
  refine ⟨?_, ?_, ?_⟩
  · have h : unpins (runOps cfgFix opsTwiceUnpinned) = [cidOf [1], cidOf [1]] := by
      decide
    rw [h]
    simp [List.nodup_cons]
  · decide
  · decide

/-- Witness for **C1 (amended)**: two keys sharing one CID, both deleted —
the shared CID is unpinned exactly once, at the point it loses its last
reference, while the still-referenced CID of the third key is never
unpinned. -/
theorem pin_accounting_witness :
    noReAdd cfgFix S0 opsShared = true ∧
    ((unpins (runOps cfgFix opsShared)).Nodup ∧
     ∀ C, C ∈ unpins (runOps cfgFix opsShared) ↔
       (everReferenced cfgFix opsShared C = true ∧
        referenced (runOps cfgFix opsShared) C = false)) :=
  ⟨by decide, pin_accounting cfgFix opsShared (by decide)⟩

end Aricanduva
